import Mathlib

/-!
Verification of the question-sync crawler (src/index.js, src/assetSync.js,
src/storage.js, src/config.js) against its natural-language specification.

The JavaScript is shallowly embedded: network and store effects are modelled
as explicit oracles / event traces, JS objects as Lean structures, and the
orchestrator loops as fuel-indexed recursive functions producing traces.
-/

set_option autoImplicit false

namespace QSync

/-! ## JS-style option helpers

JavaScript truthiness for the `x || fallback` patterns used in the source:
`undefined`, `null`, `""` and `0` are falsy. -/

/-- JS `v || null` for an optional numeric field: `0` collapses to `null`. -/
def jsOrNullNat : Option Nat → Option Nat
  | some n => if n = 0 then none else some n
  | none => none

/-- JS `v || fallback` for an optional string: `""` and `undefined` both
fall back. -/
def jsOrStr : Option String → String → String
  | some s, d => if s = "" then d else s
  | none, d => d

/-- JS `v || null` for an optional string field: `""` collapses to `null`. -/
def jsOrNullStr : Option String → Option String
  | some s => if s = "" then none else some s
  | none => none

/-! ## Retry policy (src/index.js, `requestWithRetry`, lines 60-88)

An attempt outcome is either a value or a thrown error object.  The error
object carries the fields the source reads: `error.message`,
`error.response?.status`, `error.response?.data`, `error.response?.headers`. -/

/-- The fields of a thrown request error that `requestWithRetry` inspects. -/
structure ErrObj where
  message : Option String
  status : Option Nat
  data : Option String
  headers : Option String
  deriving Repr, DecidableEq

/-- Which delay is slept between attempts. -/
inductive DelayKind where
  | rateLimit
  | flatRetry
  deriving Repr, DecidableEq

/-- The context object passed to `requestWithRetry` (spread into the
SyncError document). -/
structure Ctx where
  type : String
  info : String
  deriving Repr, DecidableEq

/-- One document inserted into the error collection. -/
structure SyncErrorDoc where
  ctxType : String
  ctxInfo : String
  status : Option Nat
  message : String
  data : Option String
  headers : Option String
  deriving Repr, DecidableEq

/-- The single SyncError document built after retry exhaustion
(src/index.js lines 75-86), from `lastError` (none models a loop that never
ran, i.e. JS `undefined`). -/
def mkSyncErrorDoc (ctx : Ctx) (last : Option ErrObj) : SyncErrorDoc :=
  { ctxType := ctx.type
    ctxInfo := ctx.info
    status := jsOrNullNat (last.bind (·.status))
    message := jsOrStr (last.bind (·.message)) "Unknown error"
    data := jsOrNullStr (last.bind (·.data))
    headers := last.bind (·.headers) }

/-- Result accumulated by the retry loop: the returned value (if any
attempt succeeded), the last error seen, and the delays slept, tagged with
the attempt number they followed. -/
structure RetryAccum (α : Type) where
  value : Option α
  lastError : Option ErrObj
  delays : List (Nat × DelayKind)
  deriving Repr

/-- The delay (if any) slept after a failed attempt `a` out of `maxR`
(src/index.js lines 67-72): HTTP 429 always sleeps the rate-limit delay;
otherwise the flat retry delay is slept only when attempts remain. -/
def delayAfterFailure (maxR : Nat) (a : Nat) (e : ErrObj) :
    List (Nat × DelayKind) :=
  if e.status = some 429 then [(a, .rateLimit)]
  else if a < maxR then [(a, .flatRetry)] else []

/-- The `for (attempt = 1; attempt <= maxRetries; ...)` loop of
`requestWithRetry`, structurally recursive on the remaining attempt budget;
`a` is the current attempt number. -/
def retryGo {α : Type} (maxR : Nat) (op : Nat → Except ErrObj α) :
    (remaining : Nat) → (a : Nat) → Option ErrObj → RetryAccum α
  | 0, _, last => ⟨none, last, []⟩
  | remaining + 1, a, _ =>
    match op a with
    | .ok v => ⟨some v, none, []⟩
    | .error e =>
      let rest := retryGo maxR op remaining (a + 1) (some e)
      ⟨rest.value, rest.lastError, delayAfterFailure maxR a e ++ rest.delays⟩

/-- Overall outcome of `requestWithRetry`: a returned value, or a rethrown
error (`thrown none` models JS `throw undefined` when `maxRetries = 0`). -/
inductive RetryOutcome (α : Type) where
  | ok (v : α)
  | thrown (e : Option ErrObj)
  deriving Repr, DecidableEq

/-- A full run of `requestWithRetry`: outcome, SyncError documents written,
and the delay trace. -/
structure RetryRun (α : Type) where
  outcome : RetryOutcome α
  errorWrites : List SyncErrorDoc
  delays : List (Nat × DelayKind)

/-- `requestWithRetry(requestFn, context)` (src/index.js lines 60-88):
run up to `maxR` attempts; on first success return the value; on
exhaustion insert exactly one SyncError document built from the last error
and rethrow it. -/
def requestWithRetry {α : Type} (maxR : Nat) (op : Nat → Except ErrObj α)
    (ctx : Ctx) : RetryRun α :=
  let acc := retryGo maxR op maxR 1 none
  match acc.value with
  | some v => ⟨.ok v, [], acc.delays⟩
  | none => ⟨.thrown acc.lastError, [mkSyncErrorDoc ctx acc.lastError], acc.delays⟩

/-- A concrete non-rate-limit error used as a witness input. -/
def err500 : ErrObj :=
  { message := some "Request failed with status code 500"
    status := some 500
    data := some "server error"
    headers := some "content-type: text/html" }

/-- A concrete rate-limit error used as a witness input. -/
def err429 : ErrObj :=
  { message := some "Request failed with status code 429"
    status := some 429
    data := none
    headers := none }

/-- A concrete retry context used as a witness input. -/
def ctxList0 : Ctx := { type := "list", info := "offset=0" }

/-! ## Asset mirror (src/assetSync.js, lines 17-196)

`mirrorUrl` and `mirrorUrlCached` are embedded with the storage adapter
(`downloadToFile`, `uploadToS3`) and the external URL library
(normalization, extension extraction, `crypto.randomUUID`) as oracles in a
`MirrorEnv`.  Effects are an explicit event trace: one event per
download/upload invocation, tagged with the raw source URL that caused it. -/

/-- JS truthiness of an optional string (`undefined`/`null`/`""` falsy). -/
def truthyStr : Option String → Bool
  | some s => s ≠ ""
  | none => false

/-- JS `s.startsWith(pre)`: character-level prefix test (computable
structurally, unlike `String.startsWith`). -/
def strStartsWith (s pre : String) : Bool :=
  pre.data.isPrefixOf s.data

/-- One AssetRecord appended to a detail record's embedded asset log
(src/assetSync.js lines 82-92). -/
structure AssetRecord where
  kind : String
  slug : String
  sourceUrl : String
  key : String
  localPath : String
  s3Url : Option String
  status : String
  errorMessage : Option String
  errorStatus : Option Nat
  deriving Repr, DecidableEq

/-- The `{record, resultUrl}` pair returned by `mirrorUrl`. -/
structure MirrorResult where
  record : Option AssetRecord
  resultUrl : String
  deriving Repr, DecidableEq

/-- Configuration and external collaborators consulted by the mirror:
`normalize` is `normalizeUrl` (the WHATWG URL library wrapped so it never
throws), `uuid` is the `crypto.randomUUID` draw made for a given mirror
invocation, `extOf` is `getExtensionFromUrl`, and `download`/`upload` are
the storage adapter operations, which either throw an error object or
return an optional path / optional mirror URL (`none` models the adapter's
`null`, returned when the phase is disabled). -/
structure MirrorEnv where
  assetSyncEnabled : Bool
  s3Enabled : Bool
  s3BaseUrl : String
  assetDownloadDir : String
  keyPref : String
  normalize : String → String
  uuid : String → String
  extOf : String → String
  download : String → String → Except ErrObj (Option String)
  upload : String → String → Except ErrObj (Option String)

/-- `buildNewKey(url, slug, problemType)` (src/assetSync.js lines 49-56):
`${prefix}/${safeType}/${safeSlug}/${id}${ext}` with falsy fallbacks. -/
def buildNewKey (env : MirrorEnv) (url slug problemType : String) : String :=
  let ext := env.extOf url
  let id := env.uuid url
  let pfx := if env.keyPref = "" then "assets" else env.keyPref
  let safeSlug := if slug = "" then "unknown" else slug
  let safeType := if problemType = "" then "unknown" else problemType
  pfx ++ "/" ++ safeType ++ "/" ++ safeSlug ++ "/" ++ id ++ ext

/-- The local path `path.join(config.assetDownloadDir, finalKey)`. -/
def mirrorLocalPath (env : MirrorEnv) (url slug problemType : String) : String :=
  env.assetDownloadDir ++ "/" ++ buildNewKey env url slug problemType

/-- One storage-adapter invocation, tagged with the raw source URL whose
mirroring caused it. -/
inductive MirrorEvent where
  | downloadAttempt (sourceUrl url : String)
  | uploadAttempt (sourceUrl key : String)
  deriving Repr, DecidableEq

/-- The raw source URL an event is tagged with. -/
def MirrorEvent.src : MirrorEvent → String
  | .downloadAttempt s _ => s
  | .uploadAttempt s _ => s

/-- Whether an event is a download (`true`) or an upload (`false`). -/
def MirrorEvent.isDownload : MirrorEvent → Bool
  | .downloadAttempt _ _ => true
  | .uploadAttempt _ _ => false

/-- Download events for source URL `u` in a trace. -/
def countDownloads (u : String) (evs : List MirrorEvent) : Nat :=
  (evs.filter (fun e => e.isDownload && e.src == u)).length

/-- Upload events for source URL `u` in a trace. -/
def countUploads (u : String) (evs : List MirrorEvent) : Nat :=
  (evs.filter (fun e => !e.isDownload && e.src == u)).length

/-- `mirrorUrl({sourceUrl, key, slug, kind, problemType})`
(src/assetSync.js lines 67-140).  The `key` argument is accepted but — as
in the source — never used: the stored key is always freshly derived by
`buildNewKey`.  Returns the `{record, resultUrl}` pair and the
storage-adapter invocations performed.  The function is total: every
download/upload failure is absorbed into a `"failed"` record. -/
def mirrorUrl (env : MirrorEnv) (sourceUrl : String) (_key : Option String)
    (slug kind problemType : String) : MirrorResult × List MirrorEvent :=
  if sourceUrl = "" ∨ env.assetSyncEnabled = false then (⟨none, sourceUrl⟩, [])
  else
    let normalized := env.normalize sourceUrl
    if env.s3BaseUrl ≠ "" ∧ strStartsWith normalized env.s3BaseUrl = true then
      (⟨none, sourceUrl⟩, [])
    else
      let finalKey := buildNewKey env sourceUrl slug problemType
      if finalKey = "" then (⟨none, sourceUrl⟩, [])
      else
        let localPath := env.assetDownloadDir ++ "/" ++ finalKey
        let record0 : AssetRecord :=
          { kind := kind, slug := slug, sourceUrl := sourceUrl
            key := finalKey, localPath := localPath, s3Url := none
            status := "skipped", errorMessage := none, errorStatus := none }
        match env.download normalized localPath with
        | .error e =>
          (⟨some { record0 with
              status := "failed"
              errorStatus := jsOrNullNat e.status
              errorMessage := some (jsOrStr e.message "Asset download failed") },
            sourceUrl⟩, [.downloadAttempt sourceUrl normalized])
        | .ok dp =>
          if truthyStr dp && env.s3Enabled then
            match env.upload finalKey (dp.getD "") with
            | .ok s3Url =>
              (⟨some { record0 with
                  s3Url := s3Url
                  status := if truthyStr s3Url then "uploaded" else "downloaded" },
                jsOrStr s3Url sourceUrl⟩,
                [.downloadAttempt sourceUrl normalized,
                  .uploadAttempt sourceUrl finalKey])
            | .error e =>
              (⟨some { record0 with
                  status := "failed"
                  errorStatus := jsOrNullNat e.status
                  errorMessage := some (jsOrStr e.message "Asset upload failed") },
                sourceUrl⟩,
                [.downloadAttempt sourceUrl normalized,
                  .uploadAttempt sourceUrl finalKey])
          else
            (⟨some { record0 with
                status := if truthyStr dp then "downloaded" else "skipped" },
              sourceUrl⟩, [.downloadAttempt sourceUrl normalized])

/-- State threaded through one detail record's asset pass: the per-record
cache (`new Map()` keyed by raw source URL), the embedded asset log
(`extra_data.asset_sync.files`), the number of `lastSyncedAt` refreshes,
and the storage-adapter event trace. -/
structure PassState where
  cache : List (String × MirrorResult)
  files : List AssetRecord
  syncedCount : Nat
  events : List MirrorEvent
  deriving Repr

/-- The empty state at the start of a detail record's pass. -/
def initPassState : PassState := ⟨[], [], 0, []⟩

/-- `addAssetLog(detailData, record)` (src/assetSync.js lines 58-65):
append-only push plus a `lastSyncedAt` refresh. -/
def addAssetLog (st : PassState) (r : AssetRecord) : PassState :=
  { st with files := st.files ++ [r], syncedCount := st.syncedCount + 1 }

/-- `mirrorUrlCached` (src/assetSync.js lines 142-149): a cache hit
returns the previously computed result without invoking `mirrorUrl`; a
miss runs `mirrorUrl` and stores the result, including failure outcomes. -/
def mirrorUrlCached (env : MirrorEnv) (sourceUrl : String) (key : Option String)
    (slug kind problemType : String) (st : PassState) :
    MirrorResult × PassState :=
  match st.cache.lookup sourceUrl with
  | some r => (r, st)
  | none =>
    let (r, evs) := mirrorUrl env sourceUrl key slug kind problemType
    let st' := { st with
      cache := (sourceUrl, r) :: st.cache
      events := st.events ++ evs }
    (r, st')

/-- One iteration of `syncPrivateAttachments`' loop (src/assetSync.js
lines 244-260): skip non-`http` strings, mirror through the cache, append
the returned record (if any) to the asset log, and substitute the result
URL for the array element when it changed. -/
def syncPrivAttachOne (env : MirrorEnv) (slug problemType : String)
    (st : PassState) (sourceUrl : String) : String × PassState :=
  if ¬ strStartsWith sourceUrl "http" = true then (sourceUrl, st)
  else
    let (res, st') :=
      mirrorUrlCached env sourceUrl none slug "private_attachment"
        problemType st
    let st'' := match res.record with
      | some r => addAssetLog st' r
      | none => st'
    if res.resultUrl ≠ "" ∧ res.resultUrl ≠ sourceUrl then
      (res.resultUrl, st'')
    else (sourceUrl, st'')

/-- `syncPrivateAttachments(detailData, slug, cache, problemType)`
(src/assetSync.js lines 242-261) over the `private_attachments` string
array, returning the rewritten array and the final pass state. -/
def syncPrivateAttachments (env : MirrorEnv) (slug problemType : String)
    (urls : List String) (st : PassState) : List String × PassState :=
  match urls with
  | [] => ([], st)
  | w :: rest =>
    let (w', st') := syncPrivAttachOne env slug problemType st w
    let (rest', st'') := syncPrivateAttachments env slug problemType rest st'
    (w' :: rest', st'')

/-- A concrete mirror environment for witnesses/counterexamples: download
and upload both succeed, remote mirroring enabled. -/
def envOk : MirrorEnv :=
  { assetSyncEnabled := true
    s3Enabled := true
    s3BaseUrl := "https://bkt.s3.us-east-1.amazonaws.com"
    assetDownloadDir := "downloads"
    keyPref := "Questions_Assets"
    normalize := fun u => u
    uuid := fun _ => "11111111-2222-3333-4444-555555555555"
    extOf := fun _ => ".png"
    download := fun _ p => .ok (some p)
    upload := fun k _ => .ok (some ("https://bkt.s3.us-east-1.amazonaws.com/" ++ k)) }

/-- A concrete source URL used in witnesses/counterexamples. -/
def cdnUrl : String := "https://cdn.example.com/a.png"

/-- The per-URL dedup invariant maintained by the per-record cache: the
trace holds at most one download and one upload for `v`, and a URL absent
from the cache has not been touched at all. -/
def DedupInv (v : String) (st : PassState) : Prop :=
  countDownloads v st.events ≤ 1 ∧ countUploads v st.events ≤ 1 ∧
    (st.cache.lookup v = none →
      countDownloads v st.events = 0 ∧ countUploads v st.events = 0)

/-- The object key `envOk` derives for `cdnUrl` under slug `two-sum` and
problem type `ALG`. -/
def keyC3 : String :=
  "Questions_Assets/ALG/two-sum/11111111-2222-3333-4444-555555555555.png"

/-- The mirror URL `envOk` produces for `keyC3`. -/
def mirC3 : String := "https://bkt.s3.us-east-1.amazonaws.com/" ++ keyC3

/-- The uploaded AssetRecord `envOk` produces for `cdnUrl` as a private
attachment of slug `two-sum`. -/
def recC3 : AssetRecord :=
  { kind := "private_attachment"
    slug := "two-sum"
    sourceUrl := cdnUrl
    key := keyC3
    localPath := "downloads/" ++ keyC3
    s3Url := some mirC3
    status := "uploaded"
    errorMessage := none
    errorStatus := none }

/-! ## Deep-scan text rewriting (src/assetSync.js, lines 317-365)

`extractUrls` embeds the regex pipeline (match `https?://[^\s"'<>]+`
case-insensitively, decode HTML entities, strip trailing punctuation,
dedup preserving first occurrence) character-structurally, and
`replaceUrlsInText` embeds the per-URL `split(url).join(resultUrl)`
substitution. -/

/-- The characters excluded by the URL regex's `[^\s"'<>]` class
(ASCII whitespace, quotes and angle brackets). -/
def isUrlStop (c : Char) : Bool :=
  c = ' ' || c = '\t' || c = '\n' || c = '\r' ||
    c = Char.ofNat 12 || c = Char.ofNat 11 || c = '"' || c = '\'' ||
    c = '<' || c = '>'

/-- Case-insensitive literal match: if `s` begins with `pat` (compared
lowercase), return the remainder. -/
def stripCi : List Char → List Char → Option (List Char)
  | [], s => some s
  | _ :: _, [] => none
  | p :: ps, c :: cs => if c.toLower = p then stripCi ps cs else none

/-- Longest run of non-stop characters at the head of `s`. -/
def takeUrlBody : List Char → List Char × List Char
  | [] => ([], [])
  | c :: cs =>
    if isUrlStop c then ([], c :: cs)
    else
      let (b, r) := takeUrlBody cs
      (c :: b, r)

/-- Length of the match of `https?:\/\/[^\s"'<>]+` (case-insensitive)
anchored at the head of `s`, if any. -/
def urlMatchLen (s : List Char) : Option Nat :=
  match stripCi ['h', 't', 't', 'p'] s with
  | none => none
  | some s1 =>
    let (sLen, s2) : Nat × List Char :=
      match s1 with
      | c :: cs => if c.toLower = 's' then (1, cs) else (0, s1)
      | [] => (0, s1)
    match stripCi [':', '/', '/'] s2 with
    | none => none
    | some s3 =>
      let body := (takeUrlBody s3).1
      if body = [] then none else some (4 + sLen + 3 + body.length)

/-- Global regex scan: all non-overlapping URL matches, left to right
(fuel-indexed; `fuel = s.length` is always enough since every step
consumes at least one character). -/
def scanUrlsFuel : Nat → List Char → List (List Char)
  | 0, _ => []
  | fuel + 1, s =>
    match s with
    | [] => []
    | c :: rest =>
      match urlMatchLen (c :: rest) with
      | some n => (c :: rest).take n :: scanUrlsFuel fuel ((c :: rest).drop n)
      | none => scanUrlsFuel fuel rest

/-- First index at which `u` occurs in `s` (substring search, used for
JS `text.includes`). -/
def firstOcc (u : List Char) : List Char → Option Nat
  | [] => if u.isPrefixOf [] then some 0 else none
  | c :: rest =>
    if u.isPrefixOf (c :: rest) then some 0
    else (firstOcc u rest).map (· + 1)

/-- `/^https?:\/\//i` — the anchored scheme test of `isHttpUrl`
(src/assetSync.js line 317). -/
def startsHttpScheme (s : List Char) : Bool :=
  match stripCi ['h', 't', 't', 'p'] s with
  | none => false
  | some s1 =>
    let s2 := match s1 with
      | c :: cs => if c.toLower = 's' then cs else s1
      | [] => s1
    (stripCi [':', '/', '/'] s2).isSome

/-- JS `s.split(u)` on character lists: leftmost non-overlapping
occurrences delimit the pieces (fuel-indexed structural recursion; every
step consumes at least one character, so `fuel = s.length` is enough). -/
def splitOnFuel (u : List Char) : Nat → List Char → List Char → List (List Char)
  | 0, acc, s => [acc.reverse ++ s]
  | fuel + 1, acc, s =>
    match s with
    | [] => [acc.reverse]
    | c :: rest =>
      if u.isPrefixOf (c :: rest) then
        acc.reverse :: splitOnFuel u fuel [] (rest.drop (u.length - 1))
      else splitOnFuel u fuel (c :: acc) rest

/-- `s.split(u)` (returns `[s]` for the empty separator, which the
deep scan never passes). -/
def splitOnL (u s : List Char) : List (List Char) :=
  if u = [] then [s] else splitOnFuel u s.length [] s

/-- `parts.join(m)` on character lists. -/
def joinWithL (m : List Char) : List (List Char) → List Char
  | [] => []
  | [s] => s
  | s :: rest => s ++ m ++ joinWithL m rest

/-- `s.split(u)` on strings. -/
def splitOnStr (u s : String) : List String :=
  (splitOnL u.data s.data).map String.mk

/-- `parts.join(m)` on strings. -/
def joinWithStr (m : String) : List String → String
  | [] => ""
  | [s] => s
  | s :: rest => s ++ m ++ joinWithStr m rest

/-- `updated.split(url).join(resultUrl)` (src/assetSync.js line 361):
replace every occurrence of `u` in `s` by `m`. -/
def replaceAllStr (s u m : String) : String :=
  joinWithStr m (splitOnStr u s)

/-- `decodeHtmlEntities` (src/assetSync.js lines 319-325): global literal
replacements of `&quot;`, `&#34;` and `&amp;`. -/
def decodeHtmlEntities (value : String) : String :=
  if value = "" then value
  else
    replaceAllStr
      (replaceAllStr (replaceAllStr value "&quot;" "\"") "&#34;" "\"")
      "&amp;" "&"

/-- JS whitespace trim for `value.trim()`. -/
def isWsChar (c : Char) : Bool :=
  c = ' ' || c = '\t' || c = '\n' || c = '\r' ||
    c = Char.ofNat 12 || c = Char.ofNat 11

/-- `value.trim()` on character lists. -/
def trimChars (s : List Char) : List Char :=
  ((s.dropWhile isWsChar).reverse.dropWhile isWsChar).reverse

/-- Characters stripped from the end by `/[)"'\]}>,;]+$/`. -/
def isTrailJunk (c : Char) : Bool :=
  c = ')' || c = '"' || c = '\'' || c = ']' || c = Char.ofNat 125 ||
    c = '>' || c = ',' || c = ';'

/-- Trailing quote characters stripped by `/["']+$/`. -/
def isTrailQuote (c : Char) : Bool :=
  c = '"' || c = '\''

/-- Strip a trailing run of characters satisfying `p`. -/
def stripTrailing (p : Char → Bool) (s : List Char) : List Char :=
  (s.reverse.dropWhile p).reverse

/-- `sanitizeUrlCandidate` (src/assetSync.js lines 327-334): trim, decode
entities, strip trailing punctuation then trailing quotes, and keep the
candidate only if it still starts with an `http(s)` scheme. -/
def sanitizeUrlCandidate (value : String) : Option String :=
  if value = "" then none
  else
    let candidate := decodeHtmlEntities ⟨trimChars value.data⟩
    let c2 : List Char := stripTrailing isTrailJunk candidate.data
    let c3 : List Char := stripTrailing isTrailQuote c2
    if startsHttpScheme c3 then some ⟨c3⟩ else none

/-- Order-preserving first-occurrence dedup (`Array.from(new Set(...))`). -/
def dedupFirstAux (seen : List String) : List String → List String
  | [] => []
  | x :: xs =>
    if seen.contains x then dedupFirstAux seen xs
    else x :: dedupFirstAux (x :: seen) xs

/-- `Array.from(new Set(cleaned))`. -/
def dedupFirst (l : List String) : List String := dedupFirstAux [] l

/-- `extractUrls(text)` (src/assetSync.js lines 336-344). -/
def extractUrls (text : String) : List String :=
  if ¬ startsHttpScheme text.data = true ∧
      (firstOcc "http".data text.data).isNone then []
  else
    dedupFirst
      (((scanUrlsFuel text.data.length text.data).map
        (fun cs => sanitizeUrlCandidate ⟨cs⟩)).filterMap id)

/-- The per-URL loop body of `replaceUrlsInText` (src/assetSync.js lines
349-363): mirror through the cache, append the returned record, and
substitute the result URL for every occurrence when it changed. -/
def replUrlsGo (env : MirrorEnv) (slug ptype : String) :
    List String → String → PassState → String × PassState
  | [], updated, st => (updated, st)
  | url :: rest, updated, st =>
    let (res, st') := mirrorUrlCached env url none slug "deep_scan" ptype st
    let st'' := match res.record with
      | some r => addAssetLog st' r
      | none => st'
    let updated' :=
      if res.resultUrl ≠ "" ∧ res.resultUrl ≠ url then
        replaceAllStr updated url res.resultUrl
      else updated
    replUrlsGo env slug ptype rest updated' st''

/-- `replaceUrlsInText(detailData, text, slug, cache, problemType)`
(src/assetSync.js lines 346-365). -/
def replaceUrlsInText (env : MirrorEnv) (slug ptype : String)
    (text : String) (st : PassState) : String × PassState :=
  replUrlsGo env slug ptype (extractUrls text) text st

/-- A mirror environment whose downloads always fail. -/
def envFail : MirrorEnv :=
  { envOk with download := fun _ _ => .error err500 }

/-- The uploaded AssetRecord `envOk` produces for `cdnUrl` during a deep
scan of slug `two-sum`. -/
def recC4 : AssetRecord := { recC3 with kind := "deep_scan" }

/-- A concrete deep-scanned text with two occurrences of `cdnUrl`. -/
def textC4 : String :=
  "pic " ++ cdnUrl ++ " mid " ++ cdnUrl ++ " end"

/-! ## Description image sync (src/assetSync.js, lines 198-220)

`syncDescriptionImages` collects the `src` captures of
`/<img[^>]+src=["']([^"']+)["']/gi` over the raw description and, per
match, mirrors the raw attribute value through the per-record cache and
substitutes the result for only the *first* occurrence via JS
`String.replace`.  The regex is embedded character-structurally below. -/

/-- A character matched by the regex class `["']`. -/
def isQuoteCh (c : Char) : Bool :=
  c = '"' || c = '\''

/-- Greedy `[^"']+`: the longest run of non-quote characters at the head
of `s`, with the remainder. -/
def takeAttrBody : List Char → List Char × List Char
  | [] => ([], [])
  | c :: cs =>
    if isQuoteCh c then ([], c :: cs)
    else
      let (b, r) := takeAttrBody cs
      (c :: b, r)

/-- Match `src=["']([^"']+)["']` (case-insensitive) at the head of `s`:
the literal `src=`, one quote character, the greedy non-empty capture
(bounded by the next quote), and one closing quote character.  Returns the
capture and the remainder after the closing quote. -/
def srcTailMatch (s : List Char) : Option (List Char × List Char) :=
  match stripCi ['s', 'r', 'c', '='] s with
  | none => none
  | some s1 =>
    match s1 with
    | [] => none
    | q :: s2 =>
      if isQuoteCh q then
        let (body, r) := takeAttrBody s2
        if body = [] then none
        else
          match r with
          | q2 :: r2 => if isQuoteCh q2 then some (body, r2) else none
          | [] => none
      else none

/-- The greedy, backtracking `[^>]+` between `<img` and `src=`: walk the
run of non-`>` characters following `<img` and, after each consumed
character (so at least one is consumed), try `src=["']([^"']+)["']` on
the rest, keeping the *last* success — the greedy quantifier backtracks
from the longest consumed prefix, so the surviving match is the one with
the most characters consumed.  The tried tail may itself contain `>`
(only the quantifier's own characters are `>`-restricted, as in the
regex). -/
def imgTailSearch (best : Option (List Char × List Char)) :
    List Char → Option (List Char × List Char)
  | [] => best
  | c :: cs =>
    if c = '>' then best
    else
      let best' :=
        match srcTailMatch cs with
        | some p => some p
        | none => best
      imgTailSearch best' cs

/-- One attempted match of `/<img[^>]+src=["']([^"']+)["']/i` anchored at
the head of `s`: the literal `<img` (case-insensitive), then the greedy
`[^>]+` search for the `src` attribute tail. -/
def imgMatchAt (s : List Char) : Option (List Char × List Char) :=
  match stripCi ['<', 'i', 'm', 'g'] s with
  | none => none
  | some s0 => imgTailSearch none s0

/-- `description.matchAll(/<img[^>]+src=["']([^"']+)["']/gi)`: scan left
to right, emit each match's capture, and resume after the match's closing
quote (fuel-indexed; every step consumes at least one character, so
`fuel = s.length` is enough). -/
def scanImgSrcFuel : Nat → List Char → List String
  | 0, _ => []
  | fuel + 1, s =>
    match s with
    | [] => []
    | c :: rest =>
      match imgMatchAt (c :: rest) with
      | some (cap, after) => String.mk cap :: scanImgSrcFuel fuel after
      | none => scanImgSrcFuel fuel rest

/-- The captured raw `src` attribute values of all image-tag matches in a
description, in match order. -/
def imgSrcMatches (description : String) : List String :=
  scanImgSrcFuel description.data.length description.data

/-- JS `s.replace(u, m)` with a string pattern: substitute `m` for the
first occurrence of `u` only, returning `s` unchanged when `u` does not
occur.  (The `$`-substitution patterns JS interprets inside the
replacement are not modeled; the mirror URLs the source feeds here are
scheme/host/key strings without `$`.) -/
def replaceFirstStr (s u m : String) : String :=
  match firstOcc u.data s.data with
  | none => s
  | some i => ⟨s.data.take i ++ m.data ++ s.data.drop (i + u.data.length)⟩

/-- The per-match loop body of `syncDescriptionImages` (src/assetSync.js
lines 203-218): mirror the raw captured attribute value through the
per-record cache, append the returned record (if any) to the asset log,
and substitute the result URL for the first occurrence of the raw value
when it changed. -/
def syncDescImgsGo (env : MirrorEnv) (slug ptype : String) :
    List String → String → PassState → String × PassState
  | [], updated, st => (updated, st)
  | u :: rest, updated, st =>
    let (res, st') :=
      mirrorUrlCached env u none slug "description_image" ptype st
    let st'' := match res.record with
      | some r => addAssetLog st' r
      | none => st'
    let updated' :=
      if res.resultUrl ≠ "" ∧ res.resultUrl ≠ u then
        replaceFirstStr updated u res.resultUrl
      else updated
    syncDescImgsGo env slug ptype rest updated' st''

/-- `syncDescriptionImages(detailData, slug, cache, problemType)`
(src/assetSync.js lines 198-220): a falsy or match-free description is
returned untouched; otherwise the per-match loop runs over the raw
captures and the rewritten description is stored back. -/
def syncDescriptionImages (env : MirrorEnv) (slug ptype : String)
    (description : String) (st : PassState) : String × PassState :=
  if description = "" then (description, st)
  else
    let ms := imgSrcMatches description
    if ms = [] then (description, st)
    else syncDescImgsGo env slug ptype ms description st

/-- Cache soundness for failed outcomes, true of the empty cache and
maintained by every `mirrorUrlCached` call: a cached result holding a
`"failed"` record echoes the raw source URL it is keyed by as its result
URL (`mirrorUrl` hands back `sourceUrl` from both of its failure exits). -/
def CacheFailEcho (st : PassState) : Prop :=
  ∀ p ∈ st.cache, ∀ r, p.2.record = some r → r.status = "failed" →
    p.2.resultUrl = p.1

/-- An entity-encoded image URL exactly as it appears inside an HTML
attribute: the query separator is the `&amp;` entity. -/
def encUrlC4 : String := "https://img.example.com/f.png?a=1&amp;b=2"

/-- The entity-decoded form of `encUrlC4` that `sanitizeUrlCandidate`
produces during the deep scan. -/
def decUrlC4 : String := "https://img.example.com/f.png?a=1&b=2"

/-- The object key `envOk` derives under slug `two-sum` and problem type
`UIX`. -/
def keyC4 : String :=
  "Questions_Assets/UIX/two-sum/11111111-2222-3333-4444-555555555555.png"

/-- The mirror URL `envOk` produces for `keyC4`. -/
def mirC4 : String := "https://bkt.s3.us-east-1.amazonaws.com/" ++ keyC4

/-- A description holding one image tag whose `src` attribute is the
entity-encoded URL. -/
def descC4 : String := "<img src=\"" ++ encUrlC4 ++ "\">"

/-- Another string field of the same detail record, containing the same
entity-encoded URL in running text. -/
def hintC4 : String := "see " ++ encUrlC4 ++ " here"

/-- The uploaded record the description pre-pass appends for the raw
attribute value `encUrlC4`. -/
def recC4e : AssetRecord :=
  { kind := "description_image"
    slug := "two-sum"
    sourceUrl := encUrlC4
    key := keyC4
    localPath := "downloads/" ++ keyC4
    s3Url := some mirC4
    status := "uploaded"
    errorMessage := none
    errorStatus := none }

/-- The uploaded AssetRecord `envOk` produces for `cdnUrl` in the
description pre-pass of slug `two-sum`. -/
def recC4img : AssetRecord := { recC3 with kind := "description_image" }

/-- The failed AssetRecord `envFail` produces for `cdnUrl` during a deep
scan of slug `two-sum`. -/
def recC4f : AssetRecord :=
  { kind := "deep_scan"
    slug := "two-sum"
    sourceUrl := cdnUrl
    key := keyC3
    localPath := "downloads/" ++ keyC3
    s3Url := none
    status := "failed"
    errorMessage := some "Request failed with status code 500"
    errorStatus := some 500 }

/-- The failed AssetRecord `envFail` produces for `cdnUrl` in the
description pre-pass of slug `two-sum`. -/
def recC4fimg : AssetRecord := { recC4f with kind := "description_image" }

/-- The asset pass `processDetailAssets` (src/assetSync.js lines 419-435)
restricted to a `"UIX"` detail record whose own string fields are, in
insertion order, `problem_type`, `description` and `hint`, with no sample
solutions, stubs, attachments or private attachments: `syncUixAssets`,
`syncAttachments` and `syncPrivateAttachments` are then vacuous, so the
pass is the description pre-pass followed by the deep-scan rewrite of each
string field in entry order (under the default `ASSET_SCAN_ALL_URLS=true`).
The deep scan's later descent into the `extra_data.asset_sync` subtree
created by `addAssetLog` happens after `hint` has received its final value
and only appends further cached log entries, so the two strings returned
here are the record's final `description` and `hint`. -/
def c4Pass (env : MirrorEnv) (slug ptype description hint : String) :
    (String × String) × PassState :=
  let (d1, st1) := syncDescriptionImages env slug ptype description
    initPassState
  let st2 := (replaceUrlsInText env slug ptype ptype st1).2
  let (d2, st3) := replaceUrlsInText env slug ptype d1 st2
  let (h2, st4) := replaceUrlsInText env slug ptype hint st3
  ((d2, h2), st4)

/-! ## Deep-scan traversal over (possibly cyclic) object graphs
(src/assetSync.js, `deepScanUrls`, lines 367-417)

JS objects live on a heap and may form cycles; the embedded graph is a
list of container nodes addressed by index, with values (`JRef`) being
scalars, strings, or references into the heap.  `walk`'s visited-set
recursion is embedded as a step function over an explicit worklist — the
visited set is checked on entry and a node's children are expanded at
most once, exactly as in the source. -/

/-- A JS value as seen by the deep scan. -/
inductive JRef where
  | null
  | bool (b : Bool)
  | num (n : Int)
  | str (s : String)
  | node (i : Nat)
  deriving Repr, DecidableEq

/-- A container node: array of values or object of named fields. -/
inductive JNode where
  | arr (elems : List JRef)
  | obj (fields : List (String × JRef))
  deriving Repr, DecidableEq

/-- The object graph: node `i` is `nodes[i]`. -/
structure Heap where
  nodes : List JNode
  deriving Repr

/-- JS truthiness of a field value (used by the avatar guard). -/
def truthyRef : Option JRef → Bool
  | some .null => false
  | some (.bool b) => b
  | some (.num n) => n ≠ 0
  | some (.str s) => s ≠ ""
  | some (.node _) => true
  | none => false

/-- The container index a value refers to, if any. -/
def refNode : JRef → Option Nat
  | .node i => some i
  | _ => none

/-- `key === "avatar_url" || key === "avatar"`. -/
def isAvatarKey (k : String) : Bool :=
  k == "avatar_url" || k == "avatar"

/-- `node.username || node.resource_uri || node.full_name` — the
profile-record shape that makes avatar fields skipped. -/
def isUserLike (fs : List (String × JRef)) : Bool :=
  truthyRef (fs.lookup "username") || truthyRef (fs.lookup "resource_uri") ||
    truthyRef (fs.lookup "full_name")

/-- The child containers `walk` descends into from a node: every
object/array-valued element or field, except avatar fields of
profile-like objects (src/assetSync.js lines 394-401). -/
def nodeChildren : JNode → List Nat
  | .arr es => es.filterMap refNode
  | .obj fs =>
    ((fs.filter (fun f => !(isAvatarKey f.1 && isUserLike fs))).map
      (·.2)).filterMap refNode

/-- Deep-scan traversal state: the visited set and the stack of container
references still to process. -/
structure ScanState where
  visited : List Nat
  worklist : List Nat
  deriving Repr

/-- The initial traversal state rooted at the detail record. -/
def initScan (root : Nat) : ScanState := ⟨[], [root]⟩

/-- One step of `walk`: pop a reference; return immediately when already
visited; otherwise mark visited and push the node's children. -/
def scanStep (h : Heap) (st : ScanState) : ScanState :=
  match st.worklist with
  | [] => st
  | i :: rest =>
    if st.visited.contains i then { st with worklist := rest }
    else
      match h.nodes.get? i with
      | none => { visited := i :: st.visited, worklist := rest }
      | some n => { visited := i :: st.visited,
                    worklist := nodeChildren n ++ rest }

/-- Iterate `scanStep`. -/
def scanRun (h : Heap) : Nat → ScanState → ScanState
  | 0, st => st
  | fuel + 1, st => scanRun h fuel (scanStep h st)

/-- The largest child count of any node in the heap. -/
def maxChildren (h : Heap) : Nat :=
  (h.nodes.map (fun n => (nodeChildren n).length)).foldr Nat.max 0

/-- Heap indices not yet visited. -/
def unvisitedCount (h : Heap) (st : ScanState) : Nat :=
  ((Finset.range h.nodes.length).filter (fun j => j ∉ st.visited)).card

/-- The termination measure: strictly decreases at every step with a
nonempty worklist. -/
def scanMeasure (h : Heap) (st : ScanState) : Nat :=
  st.worklist.length + (maxChildren h + 1) * unvisitedCount h st

/-- A two-node cyclic heap: each object points back at the other. -/
def cyclicHeap : Heap :=
  ⟨[.obj [("next", .node 1), ("name", .str "a")],
    .obj [("next", .node 0), ("name", .str "b")]]⟩

/-! ## List payload extraction (src/index.js, lines 28-42 and 104-113)

JS response values are embedded as a small JSON-like type with JS
truthiness; `getListPayload` is total and collapses malformed responses to
`{items: [], meta: {}}`. -/

/-- A JS value as the orchestrator sees a list response. -/
inductive JsVal where
  | null
  | undefVal
  | bool (b : Bool)
  | num (n : Int)
  | str (s : String)
  | arr (elems : List JsVal)
  | obj (fields : List (String × JsVal))
  deriving Repr

/-- JS truthiness of a value. -/
def JsVal.truthy : JsVal → Bool
  | .null => false
  | .undefVal => false
  | .bool b => b
  | .num n => n ≠ 0
  | .str s => s ≠ ""
  | .arr _ => true
  | .obj _ => true

/-- JS property access `v.k` (undefined on non-objects/missing keys). -/
def JsVal.getField : JsVal → String → JsVal
  | .obj fs, k =>
    match fs.lookup k with
    | some v => v
    | none => .undefVal
  | _, _ => .undefVal

/-- `Array.isArray(v)`. -/
def JsVal.isArr : JsVal → Bool
  | .arr _ => true
  | _ => false

/-- `getListPayload(response)` (src/index.js lines 104-113): total on every
response value; a falsy response, missing/non-array `objects`, or a falsy
first wrapper all degrade to `{items: [], meta: {}}`. -/
def getListPayload (response : JsVal) : JsVal × JsVal :=
  if response.truthy = false then (.arr [], .obj [])
  else
    match response.getField "objects" with
    | .arr [] => (.arr [], .obj [])
    | .arr (w :: _) =>
      if w.truthy = false then (.arr [], .obj [])
      else
        ((if (w.getField "objects").truthy then w.getField "objects"
          else .arr []),
          (if (w.getField "meta").truthy then w.getField "meta" else .obj []))
    | _ => (.arr [], .obj [])

/-- The list-page `meta` fields the orchestrator reads. -/
structure Meta where
  error : Option String
  error_type : Option String
  total_count : Option Int
  total_pages : Option Int
  page_number : Option Int
  deriving Repr, DecidableEq

/-- The meta of a malformed page: `{}`. -/
def emptyMeta : Meta := ⟨none, none, none, none, none⟩

/-- Extraction of the orchestrator-read `meta` fields from a JS value. -/
def metaOfJs (v : JsVal) : Meta :=
  { error := match v.getField "error" with | .str s => some s | _ => none
    error_type :=
      match v.getField "error_type" with | .str s => some s | _ => none
    total_count :=
      match v.getField "total_count" with | .num n => some n | _ => none
    total_pages :=
      match v.getField "total_pages" with | .num n => some n | _ => none
    page_number :=
      match v.getField "page_number" with | .num n => some n | _ => none }

/-- `getListError(meta)` (src/index.js lines 28-33): the embedded business
error, preferring `meta.error` over `meta.error_type` (JS truthiness). -/
def getListError (meta : Meta) : Option String :=
  if truthyStr meta.error then meta.error
  else if truthyStr meta.error_type then meta.error_type
  else none

/-- Case-sensitive `message.includes(sub)`. -/
def containsSub (s sub : String) : Bool :=
  (firstOcc sub.data s.data).isSome

/-- `isMaxWindowError(message)` (src/index.js lines 35-42): substring match
against the known window-limit phrasings. -/
def isMaxWindowError (message : Option String) : Bool :=
  match message with
  | none => false
  | some m =>
    if m = "" then false
    else
      containsSub m "max_result_window" ||
        containsSub m "Result window is too large" ||
        containsSub m "result window is too large"

/-! ## Resumable query loop (src/index.js, `runQuery`, lines 219-521)

`runQuery` is embedded as a fuel-indexed page loop producing an explicit
trace of network fetches and state-store checkpoints.  The remote API and
the detail/asset outcomes are a script indexed by page offset.  Each
`persist` event is one `persistState` call, recording whether that call
set the top-level `lastOffset` (and to what) and the `perQuery.lastOffset`
it carried through the always-written `multiQuery` sub-document. -/

/-- The orchestrator configuration fields `runQuery` consults. -/
structure OrchCfg where
  listLimit : Nat
  listMaxResultWindow : Option Nat
  skipExistingDetails : Bool
  detailOnlyIfMissing : Bool
  deriving Repr, DecidableEq

/-- One list item together with the scripted outcomes of its processing:
whether its slug already exists in the detail store, whether the retried
detail fetch succeeds, and whether the asset pass succeeds. -/
structure PageItem where
  slug : String
  existsInStore : Bool
  detailOk : Bool
  assetOk : Bool
  deriving Repr, DecidableEq

/-- The scripted outcome of fetching the list page at a given offset. -/
inductive PageScript where
  | fetchThrow
  | page (meta : Meta) (items : List PageItem)
  deriving Repr, DecidableEq

/-- How a single item's processing ended. -/
inductive ItemEnd where
  | skipped
  | detailFailed
  | saved
  | savedAssetFailed
  deriving Repr, DecidableEq

/-- Observable orchestrator events: list/detail fetches, `persistState`
calls (with the top-level `lastOffset` they set, if any, and the
`perQuery.lastOffset` carried by the embedded `multiQuery`), status-setting
stop checkpoints, error-log inserts, and item completions. -/
inductive OEvent where
  | listFetch (offset : Nat)
  | detailFetch (slug : String)
  | itemHandled (offset : Nat) (slug : String) (how : ItemEnd)
  | persist (topLastOffset : Option Nat) (pqLastOffset : Nat)
  | statusPersist (queryStatus globalStatus : String)
      (stopReason : Option String)
  | errorInsert
  deriving Repr, DecidableEq

/-- How `runQuery`'s loop ended. -/
inductive QueryEnd where
  | completed (stopReason : Option String)
  | failed (stopReason : String)
  | raised
  | fuelOut
  deriving Repr, DecidableEq

/-- The classification `runQuery` applies to a fetched page
(src/index.js lines 286-330): an embedded list error stops the query —
graceful completion for window-limit phrasing, query failure otherwise —
and an empty item page completes the query; anything else is processed. -/
inductive PageDecision where
  | stopMaxWindow
  | stopListError
  | completedEmpty
  | processItems
  deriving Repr, DecidableEq

/-- Classify a fetched page from its meta and raw item count. -/
def pageDecision (meta : Meta) (itemCount : Nat) : PageDecision :=
  match getListError meta with
  | some err =>
    if isMaxWindowError (some err) then .stopMaxWindow else .stopListError
  | none => if itemCount = 0 then .completedEmpty else .processItems

/-- How one item ends under the configured skip policy and its scripted
outcomes (src/index.js lines 383-465). -/
def itemEndOf (cfg : OrchCfg) (it : PageItem) : ItemEnd :=
  if cfg.skipExistingDetails && it.existsInStore then .skipped
  else if cfg.detailOnlyIfMissing && it.existsInStore then .skipped
  else if it.detailOk = false then .detailFailed
  else if it.assetOk then .saved
  else .savedAssetFailed

/-- The events of one item's processing at page offset `K`
(src/index.js lines 383-503): skips persist counters without touching
`lastOffset`; a failed detail fetch checkpoints `lastOffset = K` and
abandons the item; an asset failure checkpoints `lastOffset = K` and logs
a SyncError but the detail is still saved. -/
def itemEvents (cfg : OrchCfg) (K : Nat) (it : PageItem) : List OEvent :=
  if cfg.skipExistingDetails && it.existsInStore then
    [.persist none K, .itemHandled K it.slug .skipped]
  else if cfg.detailOnlyIfMissing && it.existsInStore then
    [.persist none K, .itemHandled K it.slug .skipped]
  else
    [.persist none K, .detailFetch it.slug] ++
      (if it.detailOk = false then
        [.persist (some K) K, .itemHandled K it.slug .detailFailed]
      else
        (if it.assetOk then [] else [.persist (some K) K, .errorInsert]) ++
          [.persist none K,
            .itemHandled K it.slug (if it.assetOk then .saved
              else .savedAssetFailed)])

/-- Whether the loop continues to the next page or stops. -/
inductive PageEnd where
  | continueAt (nextOffset : Nat)
  | stop (qe : QueryEnd)
  deriving Repr, DecidableEq

/-- The raw items of a scripted page that carry a truthy slug
(`items.filter((item) => item.slug)`, src/index.js line 335). -/
def pageItems : PageScript → List PageItem
  | .fetchThrow => []
  | .page _ items => items.filter (fun it => it.slug ≠ "")

/-- One iteration of `runQuery`'s `while (true)` page loop
(src/index.js lines 236-519): the max-result-window guard runs before the
fetch; a fetched page is classified; a processed page checkpoints
`lastOffset = K` after the bulk list upsert, runs every item, then
advances to `K + limit` and checkpoints again. -/
def pageStep (cfg : OrchCfg) (K : Nat) (ps : PageScript) :
    List OEvent × PageEnd :=
  if (match cfg.listMaxResultWindow with
      | some w => decide (w < K + cfg.listLimit)
      | none => false) then
    ([.persist (some K) K,
      .statusPersist "completed" "running" (some "max_result_window")],
      .stop (.completed (some "max_result_window")))
  else
    match ps with
    | .fetchThrow =>
      ([.persist none K, .listFetch K, .persist (some K) K], .stop .raised)
    | .page meta items =>
      let pre : List OEvent := [.persist none K, .listFetch K]
      match pageDecision meta items.length with
      | .stopMaxWindow =>
        (pre ++ [.persist (some K) K,
          .statusPersist "completed" "running" (some "max_result_window")],
          .stop (.completed (some "max_result_window")))
      | .stopListError =>
        (pre ++ [.persist (some K) K,
          .statusPersist "failed" "failed" (some "list_error")],
          .stop (.failed "list_error"))
      | .completedEmpty =>
        (pre ++ [.persist (some K) K,
          .statusPersist "completed" "running" none],
          .stop (.completed none))
      | .processItems =>
        (pre ++ [.persist (some K) K] ++
          ((pageItems ps).map (itemEvents cfg K)).flatten ++
          [.persist (some (K + cfg.listLimit)) (K + cfg.listLimit)],
          .continueAt (K + cfg.listLimit))

/-- The fuel-indexed page loop of `runQuery`, starting at offset `K`. -/
def runQueryGo (cfg : OrchCfg) (script : Nat → PageScript) :
    Nat → Nat → List OEvent × QueryEnd
  | 0, _ => ([], .fuelOut)
  | fuel + 1, K =>
    match pageStep cfg K (script K) with
    | (evs, .stop qe) => (evs, qe)
    | (evs, .continueAt K') =>
      let (evs', qe) := runQueryGo cfg script fuel K'
      (evs ++ evs', qe)

/-- The list-fetch offsets of a trace, in order. -/
def fetchOffsets (trace : List OEvent) : List Nat :=
  trace.filterMap (fun e =>
    match e with
    | .listFetch o => some o
    | _ => none)

/-! ## Startup guard and multi-query loop (src/index.js, `main`,
lines 149-549) -/

/-- A query's embedded progress record (the fields the guard and resume
logic read). -/
structure PerQ where
  status : String
  lastOffset : Nat
  deriving Repr, DecidableEq

/-- The persisted `multiQuery` sub-document. -/
structure MQState where
  queries : List String
  currentIndex : Nat
  perQuery : List (String × PerQ)
  deriving Repr, DecidableEq

/-- The persisted SyncState fields the startup logic reads. -/
structure SyncStateDoc where
  status : Option String
  lastOffset : Option Nat
  multiQuery : Option MQState
  deriving Repr, DecidableEq

/-- `main`'s configuration: the orchestrator config plus the forced-resume
override and the configured multi-query list. -/
structure MainCfg where
  orch : OrchCfg
  forceResume : Bool
  listQueryList : List String
  deriving Repr, DecidableEq

/-- `queryList` (src/index.js lines 165-168): the configured list when
nonempty, else `null`. -/
def queryListOpt (cfg : MainCfg) : Option (List String) :=
  if cfg.listQueryList.length ≠ 0 then some cfg.listQueryList else none

/-- The idempotent re-run guard (src/index.js lines 169-174): return
early iff the stored status is `completed`, no forced-resume override is
set, and either no query list is configured or
`existingState?.multiQuery?.currentIndex >= queryList.length` (JS
comparison with `undefined` is false). -/
def startupGuardReturns (cfg : MainCfg) (existing : Option SyncStateDoc) :
    Bool :=
  match existing with
  | none => false
  | some st =>
    if st.status = some "completed" ∧ cfg.forceResume = false then
      match queryListOpt cfg with
      | none => true
      | some ql =>
        match st.multiQuery with
        | none => false
        | some mq => decide (ql.length ≤ mq.currentIndex)
    else false

/-- `perQuery.lastOffset ?? 0` — the offset a query resumes from
(src/index.js lines 221-234). -/
def startOffsetFor (mq : MQState) (q : String) : Nat :=
  match mq.perQuery.lookup q with
  | some pq => pq.lastOffset
  | none => 0

/-- The multi-query loop (src/index.js lines 527-533): run the remaining
queries in order; a rethrown list failure aborts the run, any other query
end continues with the next query. -/
def mainQueriesGo (cfg : MainCfg) (scripts : String → Nat → PageScript)
    (fuel : Nat) (mq : MQState) : List String → List (String × List OEvent)
  | [] => []
  | q :: rest =>
    match runQueryGo cfg.orch (scripts q) fuel (startOffsetFor mq q) with
    | (evs, .raised) => [(q, evs)]
    | (evs, _) => (q, evs) :: mainQueriesGo cfg scripts fuel mq rest

/-- `main` after collection setup (src/index.js lines 161-548): apply the
startup guard; otherwise run the configured queries from the stored
`currentIndex` (or the single anonymous query), returning whether the
guard fired and the trace of every query entered. -/
def mainRun (cfg : MainCfg) (existing : Option SyncStateDoc)
    (scripts : String → Nat → PageScript) (fuel : Nat) :
    Bool × List (String × List OEvent) :=
  if startupGuardReturns cfg existing then (true, [])
  else
    match queryListOpt cfg with
    | some ql =>
      let mq : MQState :=
        ((existing.bind (·.multiQuery)).getD ⟨ql, 0, []⟩)
      (false, mainQueriesGo cfg scripts fuel mq (ql.drop mq.currentIndex))
    | none =>
      let mq : MQState :=
        ((existing.bind (·.multiQuery)).getD ⟨[], 0, []⟩)
      (false,
        [("", (runQueryGo cfg.orch (scripts "") fuel
          (startOffsetFor mq "")).1)])

/-- A concrete orchestrator configuration (defaults of src/config.js:
limit 200, no max-result-window, no skip flags). -/
def cfgDefault : OrchCfg :=
  { listLimit := 200
    listMaxResultWindow := none
    skipExistingDetails := false
    detailOnlyIfMissing := false }

/-- A concrete main configuration with a two-query list and no
forced-resume override. -/
def cfgC1 : MainCfg :=
  { orch := cfgDefault
    forceResume := false
    listQueryList := ["array", "graph"] }

/-- The persisted state after a fully completed two-query run: status
`completed`, both queries marked completed, and `currentIndex` stuck at
`1` — the last loop index, never the list length. -/
def stateC1 : SyncStateDoc :=
  { status := some "completed"
    lastOffset := some 400
    multiQuery := some
      ⟨["array", "graph"], 1,
        [("array", ⟨"completed", 400⟩), ("graph", ⟨"completed", 400⟩)]⟩ }

/-- A remote whose every list page is empty. -/
def scriptsEmpty : String → Nat → PageScript :=
  fun _ _ => .page emptyMeta []

/-- A concrete remote: one page with one item at offset 0, then empty. -/
def scriptC2 : Nat → PageScript :=
  fun K =>
    if K = 0 then
      .page { emptyMeta with total_count := some 1 }
        [⟨"two-sum", false, true, true⟩]
    else .page emptyMeta []

/-- A concrete window-limit error message from the remote API. -/
def winMsg : String :=
  "Result window is too large, from + size must be less than or equal to: [10000]"

/-- A page meta carrying the window-limit business error. -/
def metaWinErr : Meta := { emptyMeta with error := some winMsg }

/-! ### Retry lemmas -/

/-- When every attempt in the window fails, the loop returns no value,
remembers the final error, and its delay trace is exactly the per-attempt
delay selection over the attempted range. -/
theorem retryGo_all_fail {α : Type} (maxR : Nat) (op : Nat → Except ErrObj α)
    (errs : Nat → ErrObj) :
    ∀ (remaining a : Nat) (last : Option ErrObj),
      1 ≤ remaining →
      (∀ i, a ≤ i → i < a + remaining → op i = .error (errs i)) →
      retryGo maxR op remaining a last =
        ⟨none, some (errs (a + remaining - 1)),
          (List.range' a remaining).foldr
            (fun i acc => delayAfterFailure maxR i (errs i) ++ acc) []⟩ := by
  intro remaining
  induction remaining with
  | zero => intro a last h; omega
  | succ r ih =>
    intro a last _ hfail
    have ha : op a = .error (errs a) := hfail a (Nat.le_refl a) (by omega)
    cases r with
    | zero =>
      have hidx : a + 1 - 1 = a := by omega
      conv_lhs => rw [retryGo]
      simp only [ha, retryGo, hidx, List.range'_succ, List.range'_zero,
        List.foldr_cons, List.foldr_nil, List.append_nil]
    | succ r' =>
      have hrec := ih (a + 1) (some (errs a)) (by omega)
        (fun i hi hi2 => hfail i (by omega) (by omega))
      have hidx : a + 1 + (r' + 1) - 1 = a + (r' + 1 + 1) - 1 := by omega
      conv_lhs => rw [retryGo]
      simp only [ha, hrec, hidx, List.range'_succ, List.foldr_cons]

/-- Membership in `List.range' s n`. -/
theorem mem_range'_iff (s n i : Nat) :
    i ∈ List.range' s n ↔ s ≤ i ∧ i < s + n := by
  induction n generalizing s with
  | zero => simp
  | succ n ih =>
    simp only [List.range'_succ, List.mem_cons, ih]
    omega

/-- Membership in the folded delay trace reduces to membership in one
attempt's delay selection. -/
theorem mem_delayFold (maxR : Nat) (errs : Nat → ErrObj) (p : Nat × DelayKind) :
    ∀ (s n : Nat),
      p ∈ (List.range' s n).foldr
          (fun i acc => delayAfterFailure maxR i (errs i) ++ acc) [] ↔
        ∃ j, j ∈ List.range' s n ∧ p ∈ delayAfterFailure maxR j (errs j) := by
  intro s n
  induction n generalizing s with
  | zero => simp
  | succ n ih =>
    simp only [List.range'_succ, List.foldr_cons, List.mem_append, ih,
      List.mem_cons]
    constructor
    · rintro (h | ⟨j, hj, hp⟩)
      · exact ⟨s, Or.inl rfl, h⟩
      · exact ⟨j, Or.inr hj, hp⟩
    · rintro ⟨j, hj | hj, hp⟩
      · exact Or.inl (hj ▸ hp)
      · exact Or.inr ⟨j, hj, hp⟩

/-- Any entry of `delayAfterFailure maxR j e` is tagged with attempt `j`. -/
theorem delayAfterFailure_fst (maxR j : Nat) (e : ErrObj)
    (p : Nat × DelayKind) (hp : p ∈ delayAfterFailure maxR j e) : p.1 = j := by
  unfold delayAfterFailure at hp
  split at hp
  · simp only [List.mem_singleton] at hp; rw [hp]
  · split at hp
    · simp only [List.mem_singleton] at hp; rw [hp]
    · simp at hp

/-- When every attempt of an exhausted sequence fails, the run rethrows the
final error and its delay trace is the per-attempt selection over attempts
`1..maxR`; exactly one SyncError document, built from the context and the
final error, is written. -/
theorem requestWithRetry_all_fail {α : Type} (maxR : Nat)
    (op : Nat → Except ErrObj α) (errs : Nat → ErrObj) (ctx : Ctx)
    (hN : 1 ≤ maxR)
    (hfail : ∀ i, 1 ≤ i → i ≤ maxR → op i = .error (errs i)) :
    requestWithRetry maxR op ctx =
      ⟨.thrown (some (errs maxR)), [mkSyncErrorDoc ctx (some (errs maxR))],
        (List.range' 1 maxR).foldr
          (fun i acc => delayAfterFailure maxR i (errs i) ++ acc) []⟩ := by
  have h := retryGo_all_fail maxR op errs maxR 1 none hN
    (fun i hi hi2 => hfail i hi (by omega))
  have hidx : 1 + maxR - 1 = maxR := by omega
  rw [hidx] at h
  simp only [requestWithRetry, h]

/-- Claim C5: for an operation failing on all of the `maxR` configured
attempts, `requestWithRetry` writes exactly one SyncError document for the
whole sequence, carrying the supplied context plus the final error's
message, status, body and headers, and then rethrows the final error. -/
theorem C5_retry_exhaustion_single_error_write {α : Type} (maxR : Nat)
    (op : Nat → Except ErrObj α) (errs : Nat → ErrObj) (ctx : Ctx)
    (hN : 1 ≤ maxR)
    (hfail : ∀ i, 1 ≤ i → i ≤ maxR → op i = .error (errs i)) :
    (requestWithRetry maxR op ctx).errorWrites =
        [mkSyncErrorDoc ctx (some (errs maxR))] ∧
      (requestWithRetry maxR op ctx).outcome = .thrown (some (errs maxR)) := by
  rw [requestWithRetry_all_fail maxR op errs ctx hN hfail]
  exact ⟨rfl, rfl⟩

/-- Witness for C5 at a concrete always-failing operation with three
attempts. -/
theorem C5_witness :
    (requestWithRetry 3 (fun _ => (.error err500 : Except ErrObj Unit))
          ctxList0).errorWrites =
        [mkSyncErrorDoc ctxList0 (some err500)] ∧
      (requestWithRetry 3 (fun _ => (.error err500 : Except ErrObj Unit))
          ctxList0).outcome = .thrown (some err500) :=
  C5_retry_exhaustion_single_error_write 3 (fun _ => .error err500)
    (fun _ => err500) ctxList0 (by omega) (fun _ _ _ => rfl)

/-- Claim C6: within an exhausted retry sequence, a failed attempt with a
rate-limit (HTTP 429) error is always followed by the rate-limit delay,
even on the final attempt; a failed attempt with a non-rate-limit error is
followed by the flat retry delay only while attempts remain, and no delay
follows the final non-rate-limit failure. -/
theorem C6_retry_backoff_selection {α : Type} (maxR : Nat)
    (op : Nat → Except ErrObj α) (errs : Nat → ErrObj) (ctx : Ctx)
    (hN : 1 ≤ maxR)
    (hfail : ∀ i, 1 ≤ i → i ≤ maxR → op i = .error (errs i)) :
    (∀ i, 1 ≤ i → i ≤ maxR → (errs i).status = some 429 →
        (i, DelayKind.rateLimit) ∈ (requestWithRetry maxR op ctx).delays) ∧
      (∀ i, 1 ≤ i → i < maxR → (errs i).status ≠ some 429 →
        (i, DelayKind.flatRetry) ∈ (requestWithRetry maxR op ctx).delays) ∧
      ((errs maxR).status ≠ some 429 →
        ∀ k, (maxR, k) ∉ (requestWithRetry maxR op ctx).delays) := by
  rw [requestWithRetry_all_fail maxR op errs ctx hN hfail]
  refine ⟨?_, ?_, ?_⟩
  · intro i h1 h2 h429
    rw [mem_delayFold]
    refine ⟨i, (mem_range'_iff 1 maxR i).mpr ⟨h1, by omega⟩, ?_⟩
    simp [delayAfterFailure, h429]
  · intro i h1 h2 h429
    rw [mem_delayFold]
    refine ⟨i, (mem_range'_iff 1 maxR i).mpr ⟨h1, by omega⟩, ?_⟩
    simp [delayAfterFailure, h429, h2]
  · intro h429 k hmem
    rw [mem_delayFold] at hmem
    obtain ⟨j, hj, hp⟩ := hmem
    have hj' := (mem_range'_iff 1 maxR j).mp hj
    have hfst := delayAfterFailure_fst maxR j (errs j) (maxR, k) hp
    simp only at hfst
    subst hfst
    unfold delayAfterFailure at hp
    rw [if_neg h429, if_neg (by omega)] at hp
    simp at hp

/-- Witness for C6: three attempts where attempt 1 hits HTTP 429, attempts
2 and 3 hit HTTP 500. -/
theorem C6_witness :
    ((1, DelayKind.rateLimit) ∈
        (requestWithRetry 3
          (fun i => (if i = 1 then .error err429 else .error err500 :
            Except ErrObj Unit)) ctxList0).delays) ∧
      ((2, DelayKind.flatRetry) ∈
        (requestWithRetry 3
          (fun i => (if i = 1 then .error err429 else .error err500 :
            Except ErrObj Unit)) ctxList0).delays) ∧
      (∀ k, (3, k) ∉
        (requestWithRetry 3
          (fun i => (if i = 1 then .error err429 else .error err500 :
            Except ErrObj Unit)) ctxList0).delays) := by
  have h := C6_retry_backoff_selection 3
    (fun i => (if i = 1 then .error err429 else .error err500 :
      Except ErrObj Unit))
    (fun i => if i = 1 then err429 else err500) ctxList0 (by omega)
    (fun i h1 h2 => by by_cases hi : i = 1 <;> simp [hi])
  refine ⟨?_, ?_, ?_⟩
  · exact h.1 1 (by omega) (by omega) (by decide)
  · exact h.2.1 2 (by omega) (by omega) (by decide)
  · exact h.2.2 (by decide)

/-! ### Asset mirror lemmas -/

/-- `buildNewKey` never produces the empty string (its template always
contains three slashes), so `mirrorUrl`'s `!finalKey` guard never fires. -/
theorem buildNewKey_ne_empty (env : MirrorEnv) (url slug problemType : String) :
    buildNewKey env url slug problemType ≠ "" := by
  simp only [buildNewKey]
  intro h
  have hlen := congrArg String.length h
  simp only [String.length_append] at hlen
  have hslash : ("/" : String).length = 1 := rfl
  rw [hslash] at hlen
  have hnil : ("" : String).length = 0 := rfl
  rw [hnil] at hlen
  omega

/-- Claim C7: the asset mirror never raises — on download failure it
returns a `"failed"` record with the source URL as result; on successful
download with upload enabled it returns `"uploaded"` with the mirror URL
on upload success and `"failed"` with the source URL on upload failure;
with upload disabled it returns `"downloaded"` with the source URL. -/
theorem C7_mirror_outcome_contract (env : MirrorEnv) (u : String)
    (key : Option String) (slug kind ptype : String)
    (hu : u ≠ "") (hsync : env.assetSyncEnabled = true)
    (hnotm : ¬(env.s3BaseUrl ≠ "" ∧ strStartsWith (env.normalize u) env.s3BaseUrl = true)) :
    (∀ e, env.download (env.normalize u) (mirrorLocalPath env u slug ptype) =
          .error e →
        ∃ r, (mirrorUrl env u key slug kind ptype).1 = ⟨some r, u⟩ ∧
          r.status = "failed" ∧ r.sourceUrl = u) ∧
      (∀ p m, env.download (env.normalize u) (mirrorLocalPath env u slug ptype) =
            .ok (some p) → p ≠ "" → env.s3Enabled = true →
          env.upload (buildNewKey env u slug ptype) p = .ok (some m) → m ≠ "" →
        ∃ r, (mirrorUrl env u key slug kind ptype).1 = ⟨some r, m⟩ ∧
          r.status = "uploaded" ∧ r.s3Url = some m) ∧
      (∀ p e, env.download (env.normalize u) (mirrorLocalPath env u slug ptype) =
            .ok (some p) → p ≠ "" → env.s3Enabled = true →
          env.upload (buildNewKey env u slug ptype) p = .error e →
        ∃ r, (mirrorUrl env u key slug kind ptype).1 = ⟨some r, u⟩ ∧
          r.status = "failed") ∧
      (∀ p, env.download (env.normalize u) (mirrorLocalPath env u slug ptype) =
            .ok (some p) → p ≠ "" → env.s3Enabled = false →
        ∃ r, (mirrorUrl env u key slug kind ptype).1 = ⟨some r, u⟩ ∧
          r.status = "downloaded") := by
  have hkey := buildNewKey_ne_empty env u slug ptype
  have hguard : ¬(u = "" ∨ env.assetSyncEnabled = false) := by
    simp [hu, hsync]
  simp only [mirrorUrl, mirrorLocalPath] at *
  rw [if_neg hguard, if_neg hnotm, if_neg hkey]
  refine ⟨?_, ?_, ?_, ?_⟩
  · intro e hdl
    rw [hdl]
    exact ⟨_, rfl, rfl, rfl⟩
  · intro p m hdl hp hs3 hup hm
    rw [hdl]
    have htr : truthyStr (some p) = true := by simp [truthyStr, hp]
    simp only [htr, hs3, Bool.and_self, if_true]
    have hget : (some p).getD "" = p := rfl
    rw [hget, hup]
    have htm : truthyStr (some m) = true := by simp [truthyStr, hm]
    have hres : jsOrStr (some m) u = m := by simp [jsOrStr, hm]
    simp only [htm, if_true, hres]
    exact ⟨_, rfl, rfl, rfl⟩
  · intro p e hdl hp hs3 hup
    rw [hdl]
    have htr : truthyStr (some p) = true := by simp [truthyStr, hp]
    simp only [htr, hs3, Bool.and_self, if_true]
    have hget : (some p).getD "" = p := rfl
    rw [hget, hup]
    exact ⟨_, rfl, rfl⟩
  · intro p hdl hp hs3
    rw [hdl]
    have htr : truthyStr (some p) = true := by simp [truthyStr, hp]
    simp only [htr, hs3, Bool.and_false, if_false]
    refine ⟨_, rfl, ?_⟩
    simp [htr]

set_option maxRecDepth 8192

/-- Witness for C7: a successful download and upload of `cdnUrl` through
`envOk` yields an `"uploaded"` record carrying the mirror URL. -/
theorem C7_witness :
    ∃ r, (mirrorUrl envOk cdnUrl none "two-sum" "private_attachment"
        "ALG").1 = ⟨some r, mirC3⟩ ∧
      r.status = "uploaded" ∧ r.s3Url = some mirC3 :=
  (C7_mirror_outcome_contract envOk cdnUrl none "two-sum"
      "private_attachment" "ALG" (by decide) rfl
      (by decide)).2.1
    (mirrorLocalPath envOk cdnUrl "two-sum" "ALG") mirC3 rfl (by decide)
    rfl rfl (by decide)

/-- Download counts distribute over trace concatenation. -/
theorem countDownloads_append (v : String) (a b : List MirrorEvent) :
    countDownloads v (a ++ b) = countDownloads v a + countDownloads v b := by
  simp [countDownloads, List.filter_append]

/-- Upload counts distribute over trace concatenation. -/
theorem countUploads_append (v : String) (a b : List MirrorEvent) :
    countUploads v (a ++ b) = countUploads v a + countUploads v b := by
  simp [countUploads, List.filter_append]

/-- The event trace of one `mirrorUrl` invocation is empty, a single
download, or a download followed by an upload — all tagged with the raw
source URL. -/
theorem mirrorUrl_events_shape (env : MirrorEnv) (u : String)
    (key : Option String) (slug kind ptype : String) :
    (mirrorUrl env u key slug kind ptype).2 = [] ∨
      (∃ n, (mirrorUrl env u key slug kind ptype).2 =
        [.downloadAttempt u n]) ∨
      (∃ n k, (mirrorUrl env u key slug kind ptype).2 =
        [.downloadAttempt u n, .uploadAttempt u k]) := by
  simp only [mirrorUrl]
  split
  · left; rfl
  · split
    · left; rfl
    · split
      · left; rfl
      · split
        · right; left; exact ⟨_, rfl⟩
        · split
          · split
            · right; right; exact ⟨_, _, rfl⟩
            · right; right; exact ⟨_, _, rfl⟩
          · right; left; exact ⟨_, rfl⟩

/-- One `mirrorUrl` invocation performs at most one download and at most
one upload, and performs none at all for any other source URL. -/
theorem mirrorUrl_counts (env : MirrorEnv) (u : String) (key : Option String)
    (slug kind ptype : String) (v : String) :
    countDownloads v (mirrorUrl env u key slug kind ptype).2 ≤ 1 ∧
      countUploads v (mirrorUrl env u key slug kind ptype).2 ≤ 1 ∧
      (v ≠ u → countDownloads v (mirrorUrl env u key slug kind ptype).2 = 0 ∧
        countUploads v (mirrorUrl env u key slug kind ptype).2 = 0) := by
  rcases mirrorUrl_events_shape env u key slug kind ptype with
    h | ⟨n, h⟩ | ⟨n, k, h⟩ <;> rw [h] <;> by_cases hv : u = v
  · simp [countDownloads, countUploads]
  · simp [countDownloads, countUploads]
  · subst hv
    simp [countDownloads, countUploads, List.filter, MirrorEvent.isDownload,
      MirrorEvent.src]
  · simp only [countDownloads, countUploads, List.filter,
      MirrorEvent.isDownload, MirrorEvent.src]
    have hbe : (u == v) = false := by simp [hv]
    simp [hbe, fun h' => hv (Eq.symm h')]
  · subst hv
    simp [countDownloads, countUploads, List.filter, MirrorEvent.isDownload,
      MirrorEvent.src]
  · simp only [countDownloads, countUploads, List.filter,
      MirrorEvent.isDownload, MirrorEvent.src]
    have hbe : (u == v) = false := by simp [hv]
    simp [hbe, fun h' => hv (Eq.symm h')]

/-- `addAssetLog` only touches the files log and the timestamp, never the
cache or the event trace, so it preserves the dedup invariant. -/
theorem DedupInv_addAssetLog (v : String) (st : PassState) (r : AssetRecord)
    (h : DedupInv v st) : DedupInv v (addAssetLog st r) := h

/-- One private-attachment iteration preserves the dedup invariant. -/
theorem syncPrivAttachOne_inv (env : MirrorEnv) (slug ptype v w : String)
    (st : PassState) (h : DedupInv v st) :
    DedupInv v (syncPrivAttachOne env slug ptype st w).2 := by
  unfold syncPrivAttachOne
  split
  · exact h
  · simp only [mirrorUrlCached]
    cases hc : st.cache.lookup w with
    | some r =>
      simp only
      split
      · split
        · exact h
        · exact h
      · split
        · exact h
        · exact h
    | none =>
      simp only
      cases hmu : mirrorUrl env w none slug "private_attachment" ptype with
      | mk r evs =>
        simp only
        have hinv' : DedupInv v
            { st with
              cache := (w, r) :: st.cache
              events := st.events ++ evs } := by
          obtain ⟨h1, h2, h3⟩ := h
          by_cases hv : v = w
          · subst hv
            obtain ⟨hz1, hz2⟩ := h3 hc
            refine ⟨?_, ?_, ?_⟩
            · rw [countDownloads_append, hz1]
              have := (mirrorUrl_counts env v none slug
                "private_attachment" ptype v).1
              rw [hmu] at this
              simpa using this
            · rw [countUploads_append, hz2]
              have := (mirrorUrl_counts env v none slug
                "private_attachment" ptype v).2.1
              rw [hmu] at this
              simpa using this
            · intro hlk
              exfalso
              simp [List.lookup] at hlk
          · have hzero := (mirrorUrl_counts env w none slug
              "private_attachment" ptype v).2.2 hv
            rw [hmu] at hzero
            simp only at hzero
            refine ⟨?_, ?_, ?_⟩
            · rw [countDownloads_append, hzero.1]
              simpa using h1
            · rw [countUploads_append, hzero.2]
              simpa using h2
            · intro hlk
              have hwv : (v == w) = false := by simp [hv]
              simp only [List.lookup, hwv] at hlk
              obtain ⟨hz1, hz2⟩ := h3 hlk
              rw [countDownloads_append, countUploads_append, hz1, hz2,
                hzero.1, hzero.2]
              exact ⟨rfl, rfl⟩
        split
        · split
          · exact hinv'
          · exact hinv'
        · split
          · exact hinv'
          · exact hinv'

/-- The whole private-attachments pass preserves the dedup invariant. -/
theorem syncPrivateAttachments_inv (env : MirrorEnv) (slug ptype v : String) :
    ∀ (urls : List String) (st : PassState), DedupInv v st →
      DedupInv v (syncPrivateAttachments env slug ptype urls st).2 := by
  intro urls
  induction urls with
  | nil => intro st h; exact h
  | cons w rest ih =>
    intro st h
    simp only [syncPrivateAttachments]
    exact ih _ (syncPrivAttachOne_inv env slug ptype v w st h)

/-- Once a URL is cached with a produced record, every further occurrence
appends that same record again: cache hits re-append. -/
theorem syncPrivAttach_replicate_cached (env : MirrorEnv)
    (slug ptype u : String) (res : MirrorResult) (r : AssetRecord)
    (hhttp : strStartsWith u "http" = true) (hrec : res.record = some r) :
    ∀ (k : Nat) (st : PassState), st.cache.lookup u = some res →
      (syncPrivateAttachments env slug ptype (List.replicate k u) st).2.files =
        st.files ++ List.replicate k r := by
  intro k
  induction k with
  | zero => intro st _; simp [syncPrivateAttachments]
  | succ k ih =>
    intro st hlk
    rw [List.replicate_succ]
    simp only [syncPrivateAttachments, syncPrivAttachOne, hhttp,
      not_true_eq_false, if_false, mirrorUrlCached, hlk, hrec]
    have hstep := ih (addAssetLog st r) hlk
    split
    · rw [hstep]
      simp [addAssetLog, List.replicate_succ]
    · rw [hstep]
      simp [addAssetLog, List.replicate_succ]

/-- Claim C3 (amended): during one detail record's pass, for every
distinct source URL at most one download and at most one upload are
performed — a cache hit returns the previously computed result without
invoking the mirror again — but the cached AssetRecord is appended to the
record's asset log once per qualifying occurrence site, so the same
record appears once per occurrence. -/
theorem C3_at_most_one_mirror_per_url (env : MirrorEnv) (slug ptype : String)
    (urls : List String) (v : String) (n : Nat) (u : String) (r : AssetRecord)
    (hhttp : strStartsWith u "http" = true)
    (hrec : (mirrorUrl env u none slug "private_attachment" ptype).1.record =
      some r) :
    (countDownloads v
        (syncPrivateAttachments env slug ptype urls initPassState).2.events ≤ 1 ∧
      countUploads v
        (syncPrivateAttachments env slug ptype urls initPassState).2.events ≤ 1) ∧
      (syncPrivateAttachments env slug ptype (List.replicate n u)
          initPassState).2.files = List.replicate n r := by
  constructor
  · have h0 : DedupInv v initPassState := by
      refine ⟨by simp [initPassState, countDownloads],
        by simp [initPassState, countUploads], fun _ => ?_⟩
      exact ⟨by simp [initPassState, countDownloads],
        by simp [initPassState, countUploads]⟩
    have := syncPrivateAttachments_inv env slug ptype v urls initPassState h0
    exact ⟨this.1, this.2.1⟩
  · cases n with
    | zero => simp [syncPrivateAttachments, initPassState]
    | succ k =>
      rw [List.replicate_succ]
      simp only [syncPrivateAttachments, syncPrivAttachOne, hhttp,
        not_true_eq_false, if_false, mirrorUrlCached]
      have hlk0 : initPassState.cache.lookup u = none := rfl
      rw [hlk0]
      simp only
      cases hmu : mirrorUrl env u none slug "private_attachment" ptype with
      | mk r0 evs =>
        simp only
        have hr0 : r0.record = some r := by rw [hmu] at hrec; exact hrec
        rw [hr0]
        simp only
        have hcached := syncPrivAttach_replicate_cached env slug ptype u r0 r
          hhttp hr0 k
        split
        · rw [hcached _ (by simp [initPassState, List.lookup])]
          simp [addAssetLog, initPassState, List.replicate_succ]
        · rw [hcached _ (by simp [initPassState, List.lookup])]
          simp [addAssetLog, initPassState, List.replicate_succ]

/-- Witness for C3 (amended) at the concrete environment `envOk`:
processing `[cdnUrl, cdnUrl]` downloads and uploads at most once, and two
occurrences of `cdnUrl` append the uploaded record twice. -/
theorem C3_witness :
    (countDownloads cdnUrl
        (syncPrivateAttachments envOk "two-sum" "ALG" [cdnUrl, cdnUrl]
          initPassState).2.events ≤ 1 ∧
      countUploads cdnUrl
        (syncPrivateAttachments envOk "two-sum" "ALG" [cdnUrl, cdnUrl]
          initPassState).2.events ≤ 1) ∧
      (syncPrivateAttachments envOk "two-sum" "ALG"
          (List.replicate 2 cdnUrl) initPassState).2.files =
        List.replicate 2 recC3 :=
  C3_at_most_one_mirror_per_url envOk "two-sum" "ALG" [cdnUrl, cdnUrl]
    cdnUrl 2 cdnUrl recC3 (by decide) rfl

/-! ### Deep-scan rewrite lemmas -/

/-- A successful assoc-list lookup yields a member pair. -/
theorem lookup_mem {β : Type} (l : List (String × β)) (k : String) (v : β)
    (h : l.lookup k = some v) : (k, v) ∈ l := by
  induction l with
  | nil => simp [List.lookup] at h
  | cons p rest ih =>
    cases p with
    | mk k' v' =>
      simp only [List.lookup] at h
      cases hkb : (k == k') with
      | true =>
        rw [hkb] at h
        simp only [Option.some.injEq] at h
        have hk : k = k' := by simpa using hkb
        subst hk
        subst h
        exact List.mem_cons_self _ _
      | false =>
        rw [hkb] at h
        exact List.mem_cons_of_mem _ (ih h)

/-- `splitOnFuel` always returns a nonempty list. -/
theorem splitOnFuel_cons (u : List Char) :
    ∀ (n : Nat) (acc s : List Char),
      ∃ h t, splitOnFuel u n acc s = h :: t := by
  intro n
  induction n with
  | zero => intro acc s; exact ⟨acc.reverse ++ s, [], rfl⟩
  | succ n ih =>
    intro acc s
    cases s with
    | nil => exact ⟨acc.reverse, [], rfl⟩
    | cons c rest =>
      simp only [splitOnFuel]
      split
      · exact ⟨acc.reverse, _, rfl⟩
      · exact ih (c :: acc) rest

/-- Joining the split pieces with the separator itself reconstructs the
original text: every piece boundary is an occurrence of the separator. -/
theorem joinWithL_splitOnFuel (u : List Char) (hu : u ≠ []) :
    ∀ (n : Nat) (acc s : List Char), s.length ≤ n →
      joinWithL u (splitOnFuel u n acc s) = acc.reverse ++ s := by
  intro n
  induction n with
  | zero =>
    intro acc s hs
    have hs0 : s = [] := List.length_eq_zero.mp (Nat.le_zero.mp hs)
    subst hs0
    simp [splitOnFuel, joinWithL]
  | succ n ih =>
    intro acc s hs
    cases s with
    | nil => simp [splitOnFuel, joinWithL]
    | cons c rest =>
      simp only [splitOnFuel]
      split
      case isTrue hpre =>
        have hp : u <+: (c :: rest) := List.isPrefixOf_iff_prefix.mp hpre
        obtain ⟨t, ht⟩ := hp
        have hdrop : rest.drop (u.length - 1) = t := by
          have h1 : (c :: rest).drop u.length = t := by
            rw [← ht]; exact List.drop_left u t
          cases hu' : u with
          | nil => exact absurd hu' hu
          | cons a as =>
            rw [hu'] at h1
            simpa [List.length_cons, List.drop_succ_cons] using h1
        have hlen : (rest.drop (u.length - 1)).length ≤ n := by
          have := List.length_drop (u.length - 1) rest
          simp at hs
          omega
        obtain ⟨h0, t0, hsp⟩ := splitOnFuel_cons u n [] _
        have hrec := ih [] (rest.drop (u.length - 1)) hlen
        rw [hsp] at hrec ⊢
        simp only [joinWithL]
        rw [hrec]
        simp only [List.nil_append, List.reverse_nil]
        rw [hdrop, List.append_assoc, ht]
      case isFalse =>
        have hrec := ih (c :: acc) rest (by simp at hs; omega)
        rw [hrec]
        simp

/-- `joinWithStr` over string-wrapped pieces is `joinWithL` underneath. -/
theorem joinWithStr_map_mk (m : List Char) (parts : List (List Char)) :
    joinWithStr ⟨m⟩ (parts.map String.mk) = ⟨joinWithL m parts⟩ := by
  induction parts with
  | nil => rfl
  | cons s rest ih =>
    cases rest with
    | nil => rfl
    | cons s2 r2 =>
      simp only [List.map_cons] at ih ⊢
      simp only [joinWithStr, joinWithL]
      rw [ih]
      rfl

/-- JS `s.split(u).join(u) === s` for a nonempty separator: the split
decomposition loses nothing, so substituting the mirror URL into each
boundary slot accounts for every occurrence of the source URL. -/
theorem joinWithStr_splitOnStr (u s : String) (hu : u ≠ "") :
    joinWithStr u (splitOnStr u s) = s := by
  have hud : u.data ≠ [] := by
    intro h
    apply hu
    cases u with
    | mk d => simp at h; simp [h]
  have h1 := joinWithL_splitOnFuel u.data hud s.data.length [] s.data
    (Nat.le_refl _)
  have h2 := joinWithStr_map_mk u.data
    (splitOnFuel u.data s.data.length [] s.data)
  simp only [splitOnStr, splitOnL, if_neg hud]
  rw [h2, h1]
  simp

/-- A sanitized URL candidate is never the empty string (it still starts
with an `http` scheme). -/
theorem sanitize_ne_empty (a v : String)
    (h : sanitizeUrlCandidate a = some v) : v ≠ "" := by
  simp only [sanitizeUrlCandidate] at h
  split at h
  · exact absurd h (by simp)
  · split at h
    case isTrue hscheme =>
      simp only [Option.some.injEq] at h
      subst h
      intro hv
      have : stripTrailing isTrailQuote
          (stripTrailing isTrailJunk
            (decodeHtmlEntities ⟨trimChars a.data⟩).data) = [] := by
        have := congrArg String.data hv
        simpa using this
      rw [this] at hscheme
      simp [startsHttpScheme, stripCi] at hscheme
    case isFalse => exact absurd h (by simp)

/-- Every member of a deduped list came from the input list. -/
theorem mem_dedupFirstAux (v : String) :
    ∀ (seen l : List String), v ∈ dedupFirstAux seen l → v ∈ l := by
  intro seen l
  induction l generalizing seen with
  | nil => intro h; simp [dedupFirstAux] at h
  | cons x xs ih =>
    intro h
    simp only [dedupFirstAux] at h
    split at h
    · exact List.mem_cons_of_mem _ (ih _ h)
    · rcases List.mem_cons.mp h with h | h
      · exact h ▸ List.mem_cons_self _ _
      · exact List.mem_cons_of_mem _ (ih _ h)

/-- URLs returned by `extractUrls` are nonempty strings. -/
theorem extractUrls_ne_empty (text v : String) (h : v ∈ extractUrls text) :
    v ≠ "" := by
  simp only [extractUrls] at h
  split at h
  · simp at h
  · have hmem := mem_dedupFirstAux v _ _ h
    rw [List.mem_filterMap] at hmem
    obtain ⟨a, ha, hav⟩ := hmem
    rw [List.mem_map] at ha
    obtain ⟨cs, _, hcs⟩ := ha
    simp only [id_eq] at hav
    subst hcs
    exact sanitize_ne_empty _ _ hav

/-- When every download fails, `mirrorUrl` always hands back the source
URL as the result. -/
theorem mirrorUrl_resultUrl_of_download_fail (env : MirrorEnv) (u : String)
    (key : Option String) (slug kind ptype : String)
    (hdl : ∀ url p, ∃ e, env.download url p = .error e) :
    (mirrorUrl env u key slug kind ptype).1.resultUrl = u := by
  simp only [mirrorUrl]
  split
  · rfl
  · split
    · rfl
    · split
      · rfl
      · obtain ⟨e, he⟩ := hdl (env.normalize u)
          (env.assetDownloadDir ++ "/" ++ buildNewKey env u slug ptype)
        rw [he]

/-- When every download fails and every cached result echoes its source
URL, the deep-scan text rewrite leaves the text unchanged. -/
theorem replUrlsGo_unchanged (env : MirrorEnv) (slug ptype : String)
    (hdl : ∀ url p, ∃ e, env.download url p = .error e) :
    ∀ (urls : List String) (updated : String) (st : PassState),
      (∀ pr ∈ st.cache, pr.2.resultUrl = pr.1) →
      (replUrlsGo env slug ptype urls updated st).1 = updated := by
  intro urls
  induction urls with
  | nil => intro updated st _; rfl
  | cons url rest ih =>
    intro updated st hc
    simp only [replUrlsGo, mirrorUrlCached]
    cases hlk : st.cache.lookup url with
    | some res =>
      simp only
      have hres : res.resultUrl = url := hc (url, res) (lookup_mem _ _ _ hlk)
      rw [if_neg (by simp [hres])]
      split
      · exact ih updated _ hc
      · exact ih updated _ hc
    | none =>
      simp only
      cases hmu : mirrorUrl env url none slug "deep_scan" ptype with
      | mk res evs =>
        simp only
        have hres : res.resultUrl = url := by
          have := mirrorUrl_resultUrl_of_download_fail env url none slug
            "deep_scan" ptype hdl
          rw [hmu] at this
          exact this
        rw [if_neg (by simp [hres])]
        have hc' : ∀ pr ∈ ((url, res) :: st.cache), pr.2.resultUrl = pr.1 := by
          intro pr hpr
          rcases List.mem_cons.mp hpr with h | h
          · subst h; exact hres
          · exact hc pr h
        split
        · exact ih updated _ hc'
        · exact ih updated _ hc'

/-- A failed `mirrorUrl` outcome always hands back the raw source URL as
its result: both failure exits return `sourceUrl`, and every other exit
carries a status other than `"failed"`. -/
theorem mirrorUrl_failed_echo (env : MirrorEnv) (u : String)
    (key : Option String) (slug kind ptype : String) (r : AssetRecord)
    (hst : r.status = "failed") :
    ∀ orec rurl, (mirrorUrl env u key slug kind ptype).1 = ⟨orec, rurl⟩ →
      orec = some r → rurl = u := by
  intro orec rurl hmu hor
  subst hor
  simp only [mirrorUrl] at hmu
  split at hmu
  · simp at hmu
  · split at hmu
    · simp at hmu
    · split at hmu
      · simp at hmu
      · split at hmu
        · simp only [MirrorResult.mk.injEq] at hmu
          exact hmu.2.symm
        · split at hmu
          · split at hmu
            · simp only [MirrorResult.mk.injEq, Option.some.injEq] at hmu
              rw [← hmu.1] at hst
              simp only at hst
              split at hst
              · exact absurd hst (by decide)
              · exact absurd hst (by decide)
            · simp only [MirrorResult.mk.injEq] at hmu
              exact hmu.2.symm
          · simp only [MirrorResult.mk.injEq, Option.some.injEq] at hmu
            rw [← hmu.1] at hst
            simp only at hst
            split at hst
            · exact absurd hst (by decide)
            · exact absurd hst (by decide)

/-- Through the cache: a `mirrorUrlCached` outcome holding a failed
record echoes the raw URL it was asked about, whether it is served from a
sound cache (`CacheFailEcho`) or freshly computed by `mirrorUrl`. -/
theorem mirrorUrlCached_failed_echo (env : MirrorEnv) (u : String)
    (key : Option String) (slug kind ptype : String) (st : PassState)
    (r : AssetRecord) (m : String)
    (hce : CacheFailEcho st)
    (h : (mirrorUrlCached env u key slug kind ptype st).1 = ⟨some r, m⟩)
    (hst : r.status = "failed") : m = u := by
  simp only [mirrorUrlCached] at h
  cases hlk : st.cache.lookup u with
  | some res =>
    rw [hlk] at h
    have hres : res = ⟨some r, m⟩ := h
    have hecho := hce (u, res) (lookup_mem _ _ _ hlk) r
      (by rw [hres]) hst
    rw [hres] at hecho
    exact hecho
  | none =>
    rw [hlk] at h
    cases hmu : mirrorUrl env u key slug kind ptype with
    | mk res evs =>
      rw [hmu] at h
      have hres : res = ⟨some r, m⟩ := h
      exact mirrorUrl_failed_echo env u key slug kind ptype r hst
        (some r) m (by rw [hmu, hres]) rfl

/-- `mirrorUrlCached` preserves the failed-echo cache invariant: a fresh
entry holding a failed record stores the source URL as its result. -/
theorem CacheFailEcho_mirrorUrlCached (env : MirrorEnv) (u : String)
    (key : Option String) (slug kind ptype : String) (st : PassState)
    (hce : CacheFailEcho st) :
    CacheFailEcho (mirrorUrlCached env u key slug kind ptype st).2 := by
  cases hlk : st.cache.lookup u with
  | some res =>
    have hgoal : (mirrorUrlCached env u key slug kind ptype st).2 = st := by
      simp only [mirrorUrlCached, hlk]
    rw [hgoal]
    exact hce
  | none =>
    cases hmu : mirrorUrl env u key slug kind ptype with
    | mk res evs =>
      have hgoal : (mirrorUrlCached env u key slug kind ptype st).2 =
          { st with
            cache := (u, res) :: st.cache
            events := st.events ++ evs } := by
        simp only [mirrorUrlCached, hlk, hmu]
      rw [hgoal]
      intro p hp r hrec hst
      rcases List.mem_cons.mp hp with hp1 | hp2
      · subst hp1
        exact mirrorUrl_failed_echo env u key slug kind ptype r hst
          res.record res.resultUrl (by rw [hmu]) hrec
      · exact hce p hp2 r hrec hst

/-- Claim C4 (amended): rewrite consistency holds per rewrite site, for
arbitrary texts, arbitrary remaining URL lists and arbitrary (also
cache-hit) mirror outcomes.  In the deep scan, a step whose mirror
outcome is `⟨some r, m⟩` with a truthy `m ≠ u` — every uploaded outcome —
continues with `replaceAllStr text u m`, and rejoining the split
decomposition with `u` itself reconstructs `text`, so every occurrence of
`u` is substituted; a step whose outcome holds a `"failed"` record echoes
`u` (its own rewrite guard skips) and passes the text on byte-for-byte
unchanged, even when other URLs of the same pass are uploaded and
rewritten; the description pre-pass behaves identically except that it
substitutes only the first occurrence (JS `String.replace`); the
failed-echo cache invariant is preserved by every cached mirror call; and
when every download fails the whole deep-scan rewrite is the identity on
the text.  The record-global reading of the claim is refuted by
`C4_counterexample`. -/
theorem C4_rewrite_consistency (env : MirrorEnv) (slug ptype u m : String)
    (us : List String) (text : String) (st : PassState) (r : AssetRecord) :
    ((mirrorUrlCached env u none slug "deep_scan" ptype st).1 =
          ⟨some r, m⟩ →
        u ≠ "" → m ≠ "" → m ≠ u →
        replUrlsGo env slug ptype (u :: us) text st =
            replUrlsGo env slug ptype us (replaceAllStr text u m)
              (addAssetLog
                (mirrorUrlCached env u none slug "deep_scan" ptype st).2
                r) ∧
          joinWithStr u (splitOnStr u text) = text) ∧
      (CacheFailEcho st →
        (mirrorUrlCached env u none slug "deep_scan" ptype st).1 =
          ⟨some r, m⟩ →
        r.status = "failed" →
        replUrlsGo env slug ptype (u :: us) text st =
          replUrlsGo env slug ptype us text
            (addAssetLog
              (mirrorUrlCached env u none slug "deep_scan" ptype st).2
              r)) ∧
      ((mirrorUrlCached env u none slug "description_image" ptype st).1 =
          ⟨some r, m⟩ →
        m ≠ "" → m ≠ u →
        syncDescImgsGo env slug ptype (u :: us) text st =
          syncDescImgsGo env slug ptype us (replaceFirstStr text u m)
            (addAssetLog
              (mirrorUrlCached env u none slug "description_image" ptype
                st).2
              r)) ∧
      (CacheFailEcho st →
        (mirrorUrlCached env u none slug "description_image" ptype st).1 =
          ⟨some r, m⟩ →
        r.status = "failed" →
        syncDescImgsGo env slug ptype (u :: us) text st =
          syncDescImgsGo env slug ptype us text
            (addAssetLog
              (mirrorUrlCached env u none slug "description_image" ptype
                st).2
              r)) ∧
      (CacheFailEcho st →
        CacheFailEcho
          (mirrorUrlCached env u none slug "deep_scan" ptype st).2) ∧
      ((∀ url p, ∃ e, env.download url p = .error e) →
        (∀ pr ∈ st.cache, pr.2.resultUrl = pr.1) →
        (replaceUrlsInText env slug ptype text st).1 = text) := by
  refine ⟨?_, ?_, ?_, ?_, ?_, ?_⟩
  · intro h hu hm1 hm2
    refine ⟨?_, joinWithStr_splitOnStr u text hu⟩
    rcases hmc : mirrorUrlCached env u none slug "deep_scan" ptype st
      with ⟨res, st'⟩
    rw [hmc] at h
    have hres : res = ⟨some r, m⟩ := h
    subst hres
    simp only [replUrlsGo, hmc]
    rw [if_pos ⟨hm1, hm2⟩]
  · intro hce h hfail
    have hmu : m = u :=
      mirrorUrlCached_failed_echo env u none slug "deep_scan" ptype st
        r m hce h hfail
    rcases hmc : mirrorUrlCached env u none slug "deep_scan" ptype st
      with ⟨res, st'⟩
    rw [hmc] at h
    have hres : res = ⟨some r, m⟩ := h
    subst hres
    simp only [replUrlsGo, hmc]
    rw [if_neg (fun hc => hc.2 hmu)]
  · intro h hm1 hm2
    rcases hmc : mirrorUrlCached env u none slug "description_image" ptype
      st with ⟨res, st'⟩
    rw [hmc] at h
    have hres : res = ⟨some r, m⟩ := h
    subst hres
    simp only [syncDescImgsGo, hmc]
    rw [if_pos ⟨hm1, hm2⟩]
  · intro hce h hfail
    have hmu : m = u :=
      mirrorUrlCached_failed_echo env u none slug "description_image"
        ptype st r m hce h hfail
    rcases hmc : mirrorUrlCached env u none slug "description_image" ptype
      st with ⟨res, st'⟩
    rw [hmc] at h
    have hres : res = ⟨some r, m⟩ := h
    subst hres
    simp only [syncDescImgsGo, hmc]
    rw [if_neg (fun hc => hc.2 hmu)]
  · intro hce
    exact CacheFailEcho_mirrorUrlCached env u none slug "deep_scan" ptype
      st hce
  · intro hdl hc
    exact replUrlsGo_unchanged env slug ptype hdl (extractUrls text) text
      st hc

/-- Witness for C4: concrete instances of every conjunct — `envOk`
uploads `cdnUrl`, the deep-scan step substitutes both occurrences in
`textC4` and the description step substitutes only the first; `envFail`'s
download failure leaves the text unchanged in both loops and across the
whole deep-scan rewrite of `textC4`. -/
theorem C4_witness :
    ((replUrlsGo envOk "two-sum" "ALG" [cdnUrl] textC4 initPassState).1 =
        replaceAllStr textC4 cdnUrl mirC3 ∧
      joinWithStr cdnUrl (splitOnStr cdnUrl textC4) = textC4) ∧
      (replUrlsGo envFail "two-sum" "ALG" [cdnUrl] textC4
          initPassState).1 = textC4 ∧
      (syncDescImgsGo envOk "two-sum" "ALG" [cdnUrl] textC4
          initPassState).1 = replaceFirstStr textC4 cdnUrl mirC3 ∧
      (syncDescImgsGo envFail "two-sum" "ALG" [cdnUrl] textC4
          initPassState).1 = textC4 ∧
      (replaceUrlsInText envFail "two-sum" "ALG" textC4 initPassState).1 =
        textC4 := by
  have hceInit : CacheFailEcho initPassState := by
    intro p hp
    simp [initPassState] at hp
  have h1 := (C4_rewrite_consistency envOk "two-sum" "ALG" cdnUrl mirC3 []
    textC4 initPassState recC4).1 (by decide) (by decide) (by decide)
    (by decide)
  have h2 := (C4_rewrite_consistency envFail "two-sum" "ALG" cdnUrl cdnUrl
    [] textC4 initPassState recC4f).2.1 hceInit (by decide) (by decide)
  have h3 := (C4_rewrite_consistency envOk "two-sum" "ALG" cdnUrl mirC3 []
    textC4 initPassState recC4img).2.2.1 (by decide) (by decide)
    (by decide)
  have h4 := (C4_rewrite_consistency envFail "two-sum" "ALG" cdnUrl cdnUrl
    [] textC4 initPassState recC4fimg).2.2.2.1 hceInit (by decide)
    (by decide)
  have h6 := (C4_rewrite_consistency envFail "two-sum" "ALG" cdnUrl cdnUrl
    [] textC4 initPassState recC4f).2.2.2.2.2
    (fun url p => ⟨err500, rfl⟩)
    (by intro pr hpr; simp [initPassState] at hpr)
  exact ⟨⟨by rw [h1.1]; rfl, h1.2⟩, by rw [h2]; rfl, by rw [h3]; rfl,
    by rw [h4]; rfl, h6⟩

/-- Counterexample to claim C4 as stated: a `"UIX"` record whose
description holds `<img src="…&amp;…">` and whose `hint` field contains
the same entity-encoded URL in running text.  The description pre-pass
mirrors the raw attribute value and appends an `"uploaded"` AssetRecord
whose `sourceUrl` is the encoded URL, but the deep scan extracts only the
entity-decoded candidate — a different string and a different cache key —
whose `split`/`join` rewrite cannot match the encoded occurrence: after
the pass the `hint` string still contains that uploaded record's
`sourceUrl` verbatim, unreplaced by its mirror URL, refuting "every
textual occurrence of its sourceUrl … within every deep-scanned string is
replaced by its mirrorUrl". -/
theorem C4_counterexample :
    (c4Pass envOk "two-sum" "UIX" descC4 hintC4).2.files.head? =
        some recC4e ∧
      recC4e.status = "uploaded" ∧
      ((c4Pass envOk "two-sum" "UIX" descC4 hintC4).2.files.map
        (fun a => a.sourceUrl)) = [encUrlC4, decUrlC4] ∧
      (c4Pass envOk "two-sum" "UIX" descC4 hintC4).1.1 =
        "<img src=\"" ++ mirC4 ++ "\">" ∧
      (c4Pass envOk "two-sum" "UIX" descC4 hintC4).1.2 = hintC4 ∧
      firstOcc recC4e.sourceUrl.data hintC4.data = some 4 ∧
      recC4e.sourceUrl ≠ mirC4 :=
  ⟨rfl, rfl, rfl, rfl, rfl, rfl, by decide⟩

/-- Counterexample to claim C3 as stated: with the same URL occurring at
two private-attachment sites, only one download is performed, yet two
`"uploaded"` AssetRecords for that URL are appended to the asset log —
the claim's "at most one AssetRecord with status downloaded/uploaded per
distinct URL" is false on the code. -/
theorem C3_counterexample :
    ((syncPrivateAttachments envOk "two-sum" "ALG" [cdnUrl, cdnUrl]
        initPassState).2.files.filter
        (fun a => a.sourceUrl == cdnUrl &&
          (a.status == "downloaded" || a.status == "uploaded"))).length = 2 ∧
      countDownloads cdnUrl
        (syncPrivateAttachments envOk "two-sum" "ALG" [cdnUrl, cdnUrl]
          initPassState).2.events = 1 :=
  ⟨rfl, rfl⟩

/-! ### Deep-scan termination lemmas -/

/-- Any member of a list is bounded by its max-fold. -/
theorem le_foldr_max (a : Nat) :
    ∀ (l : List Nat), a ∈ l → a ≤ l.foldr Nat.max 0 := by
  intro l
  induction l with
  | nil => intro h; simp at h
  | cons x xs ih =>
    intro h
    rcases List.mem_cons.mp h with h | h
    · subst h
      simp only [List.foldr]
      exact Nat.le_max_left _ _
    · simp only [List.foldr]
      exact Nat.le_trans (ih h) (Nat.le_max_right _ _)

/-- The termination measure strictly decreases on every step taken with a
nonempty worklist: a visited pop shrinks the worklist; a fresh node trades
one unvisited index (weight `maxChildren + 1`) for at most `maxChildren`
pushed children. -/
theorem scanMeasure_decreases (h : Heap) (st : ScanState)
    (hw : st.worklist ≠ []) :
    scanMeasure h (scanStep h st) < scanMeasure h st := by
  obtain ⟨vis, wl⟩ := st
  rcases wl with _ | ⟨i, rest⟩
  · exact absurd rfl hw
  simp only [scanStep]
  by_cases hv : vis.contains i
  · rw [if_pos hv]
    unfold scanMeasure unvisitedCount
    simp only [List.length_cons]
    omega
  · rw [if_neg hv]
    have hvm : i ∉ vis := by simpa using hv
    cases hn : h.nodes.get? i with
    | none =>
      have hge : h.nodes.length ≤ i := by
        by_contra hlt
        push_neg at hlt
        rw [List.get?_eq_get hlt] at hn
        exact Option.noConfusion hn
      have hU : unvisitedCount h ⟨i :: vis, rest⟩ =
          unvisitedCount h ⟨vis, i :: rest⟩ := by
        unfold unvisitedCount
        congr 1
        apply Finset.filter_congr
        intro j hj
        have hji : j ≠ i := by
          have := Finset.mem_range.mp hj
          omega
        simp [List.mem_cons, hji]
      unfold scanMeasure
      rw [hU]
      simp only [List.length_cons]
      omega
    | some n =>
      have hin : i < h.nodes.length := by
        by_contra hge
        push_neg at hge
        rw [List.get?_eq_none.mpr hge] at hn
        exact Option.noConfusion hn
      have hUi : i ∈ (Finset.range h.nodes.length).filter
          (fun j => j ∉ vis) := by
        rw [Finset.mem_filter, Finset.mem_range]
        exact ⟨hin, hvm⟩
      have hU : unvisitedCount h ⟨i :: vis, nodeChildren n ++ rest⟩ =
          unvisitedCount h ⟨vis, i :: rest⟩ - 1 := by
        unfold unvisitedCount
        have hset : (Finset.range h.nodes.length).filter
            (fun j => j ∉ i :: vis) =
            ((Finset.range h.nodes.length).filter
              (fun j => j ∉ vis)).erase i := by
          ext j
          simp only [Finset.mem_filter, Finset.mem_range, Finset.mem_erase,
            List.mem_cons]
          tauto
        rw [hset, Finset.card_erase_of_mem hUi]
      have hU1 : 1 ≤ unvisitedCount h ⟨vis, i :: rest⟩ :=
        Finset.card_pos.mpr ⟨i, hUi⟩
      have hc : (nodeChildren n).length ≤ maxChildren h := by
        have hmem : n ∈ h.nodes := by
          have hg := List.get?_eq_get hin
          rw [hg] at hn
          have : h.nodes.get ⟨i, hin⟩ = n := by
            injection hn
          exact this ▸ List.get_mem _ _ _
        exact le_foldr_max _ _
          (List.mem_map_of_mem (fun n => (nodeChildren n).length) hmem)
      obtain ⟨u, hu⟩ : ∃ u, unvisitedCount h ⟨vis, i :: rest⟩ = u + 1 :=
        ⟨unvisitedCount h ⟨vis, i :: rest⟩ - 1, by omega⟩
      unfold scanMeasure
      rw [hU, hu]
      simp only [List.length_cons, List.length_append,
        Nat.add_sub_cancel, Nat.mul_succ]
      omega

/-- A state with an empty worklist is a fixpoint of the traversal. -/
theorem scanRun_fix (h : Heap) :
    ∀ (fuel : Nat) (st : ScanState), st.worklist = [] →
      scanRun h fuel st = st := by
  intro fuel
  induction fuel with
  | zero => intro st _; rfl
  | succ fuel ih =>
    intro st hw
    have hstep : scanStep h st = st := by
      unfold scanStep
      rw [hw]
    rw [scanRun, hstep]
    exact ih st hw

/-- The worklist empties within `scanMeasure` steps — on every heap,
cyclic object graphs included. -/
theorem scanRun_empties (h : Heap) :
    ∀ (fuel : Nat) (st : ScanState), scanMeasure h st ≤ fuel →
      (scanRun h fuel st).worklist = [] := by
  intro fuel
  induction fuel with
  | zero =>
    intro st hm
    unfold scanMeasure at hm
    have hl : st.worklist.length = 0 := by omega
    have := List.length_eq_zero.mp hl
    simpa [scanRun] using this
  | succ fuel ih =>
    intro st hm
    rcases hwl : st.worklist with _ | ⟨i, rest⟩
    · rw [scanRun_fix h (fuel + 1) st hwl]
      exact hwl
    · have hdec := scanMeasure_decreases h st (by rw [hwl]; simp)
      rw [scanRun]
      exact ih (scanStep h st) (by omega)

/-- A step never records a node twice in the visited set. -/
theorem scanStep_nodup (h : Heap) (st : ScanState)
    (hnd : st.visited.Nodup) : (scanStep h st).visited.Nodup := by
  obtain ⟨vis, wl⟩ := st
  simp only at hnd
  rcases wl with _ | ⟨i, rest⟩
  · exact hnd
  · simp only [scanStep]
    by_cases hv : vis.contains i
    · rw [if_pos hv]
      exact hnd
    · rw [if_neg hv]
      have hvm : i ∉ vis := by simpa using hv
      cases h.nodes.get? i
      · exact List.nodup_cons.mpr ⟨hvm, hnd⟩
      · exact List.nodup_cons.mpr ⟨hvm, hnd⟩

/-- The whole traversal never records a node twice. -/
theorem scanRun_nodup (h : Heap) :
    ∀ (fuel : Nat) (st : ScanState), st.visited.Nodup →
      (scanRun h fuel st).visited.Nodup := by
  intro fuel
  induction fuel with
  | zero => intro st hnd; exact hnd
  | succ fuel ih =>
    intro st hnd
    rw [scanRun]
    exact ih _ (scanStep_nodup h st hnd)

/-- Claim C9: for every detail record value — self-referential object
graphs included — the deep-scan traversal terminates: within
`scanMeasure` steps the worklist is empty and the state is a fixpoint of
`scanStep`, and the visited set records each container node at most once
(each node is descended at most once). -/
theorem C9_deep_scan_terminates (h : Heap) (root : Nat) :
    (scanRun h (scanMeasure h (initScan root)) (initScan root)).worklist =
        [] ∧
      (scanRun h (scanMeasure h (initScan root)) (initScan root)).visited.Nodup ∧
      scanStep h (scanRun h (scanMeasure h (initScan root)) (initScan root)) =
        scanRun h (scanMeasure h (initScan root)) (initScan root) := by
  have h1 := scanRun_empties h (scanMeasure h (initScan root))
    (initScan root) (Nat.le_refl _)
  refine ⟨h1, scanRun_nodup h _ (initScan root) (by simp [initScan]), ?_⟩
  unfold scanStep
  rw [h1]

/-! ### Orchestrator theorems -/

/-- Claim C1, evaluated at the failing input: after a fully completed
two-query run (`status = "completed"`, no forced resume, every configured
query already entered — `currentIndex` is `1`, the last loop index, with
both queries marked completed), the startup guard does **not** return:
`currentIndex >= queryList.length` compares `1 >= 2`, which is false
because the loop stores `currentIndex = i` with `i < length`.  The re-run
therefore re-enters the already-completed query `"graph"` and performs a
list fetch at its stored offset — not the claimed zero network requests. -/
theorem C1_completed_rerun_still_fetches :
    startupGuardReturns cfgC1 (some stateC1) = false ∧
      stateC1.multiQuery.map (·.currentIndex) = some 1 ∧
      cfgC1.listQueryList.length = 2 ∧
      (stateC1.multiQuery.getD ⟨[], 0, []⟩).perQuery.lookup "graph" =
        some ⟨"completed", 400⟩ ∧
      (mainRun cfgC1 (some stateC1) scriptsEmpty 2).2.map Prod.fst =
        ["graph"] ∧
      fetchOffsets
        (((mainRun cfgC1 (some stateC1) scriptsEmpty 2).2.map
          Prod.snd).flatten) = [400] :=
  ⟨rfl, rfl, rfl, rfl, rfl, rfl⟩

/-- Claim C8: a list page whose meta carries an embedded error stops the
query without raising — window-limit phrasing is classified as graceful
completion with `stopReason = "max_result_window"` (persisted query status
`completed`, global status stays `running`), any other message marks the
query and run state `failed` with `stopReason = "list_error"`; and in
multi-query mode a non-raised query end lets the run continue with the
next query. -/
theorem C8_list_error_classification (cfg : OrchCfg)
    (s : Nat → PageScript) (fuel L0 : Nat) (msg : String) (meta : Meta)
    (items : List PageItem) (mcfg : MainCfg)
    (scripts : String → Nat → PageScript) (mq : MQState) (q1 q2 : String)
    (fl : Nat)
    (hwin : ∀ w, cfg.listMaxResultWindow = some w → L0 + cfg.listLimit ≤ w)
    (herr : getListError meta = some msg)
    (hs : s L0 = .page meta items)
    (hq1 : (runQueryGo mcfg.orch (scripts q1) fl
      (startOffsetFor mq q1)).2 ≠ .raised) :
    ((isMaxWindowError (some msg) = true →
        (runQueryGo cfg s (fuel + 1) L0).2 =
            .completed (some "max_result_window") ∧
          .statusPersist "completed" "running" (some "max_result_window") ∈
            (runQueryGo cfg s (fuel + 1) L0).1) ∧
      (isMaxWindowError (some msg) = false →
        (runQueryGo cfg s (fuel + 1) L0).2 = .failed "list_error" ∧
          .statusPersist "failed" "failed" (some "list_error") ∈
            (runQueryGo cfg s (fuel + 1) L0).1) ∧
      (runQueryGo cfg s (fuel + 1) L0).2 ≠ .raised) ∧
      (mainQueriesGo mcfg scripts fl mq [q1, q2]).map Prod.fst =
        [q1, q2] := by
  have hwinb : (match cfg.listMaxResultWindow with
      | some w => decide (w < L0 + cfg.listLimit)
      | none => false) = false := by
    cases hW : cfg.listMaxResultWindow with
    | none => rfl
    | some w =>
      have := hwin w hW
      simp only [decide_eq_false_iff_not]
      omega
  constructor
  · rw [runQueryGo, hs]
    unfold pageStep
    rw [hwinb, if_neg Bool.false_ne_true]
    simp only [pageDecision, herr]
    by_cases hmw : isMaxWindowError (some msg) = true
    · rw [if_pos hmw]
      exact ⟨fun _ => ⟨rfl, by simp⟩,
        fun hmf => absurd hmw (by simp [hmf]), by simp⟩
    · rw [if_neg hmw]
      exact ⟨fun hmt => absurd hmt hmw, fun _ => ⟨rfl, by simp⟩, by simp⟩
  · simp only [mainQueriesGo]
    rcases h1 : runQueryGo mcfg.orch (scripts q1) fl (startOffsetFor mq q1)
      with ⟨evs1, qe1⟩
    cases qe1 with
    | raised => exact absurd (by rw [h1]) hq1
    | completed sr =>
      simp only [mainQueriesGo]
      rcases runQueryGo mcfg.orch (scripts q2) fl (startOffsetFor mq q2)
        with ⟨evs2, qe2⟩
      cases qe2 <;> rfl
    | failed sr =>
      simp only [mainQueriesGo]
      rcases runQueryGo mcfg.orch (scripts q2) fl (startOffsetFor mq q2)
        with ⟨evs2, qe2⟩
      cases qe2 <;> rfl
    | fuelOut =>
      simp only [mainQueriesGo]
      rcases runQueryGo mcfg.orch (scripts q2) fl (startOffsetFor mq q2)
        with ⟨evs2, qe2⟩
      cases qe2 <;> rfl

/-- Witness for C8: a page whose meta carries the concrete window-limit
message completes the query gracefully, and the two-query run proceeds to
the second query. -/
theorem C8_witness :
    ((isMaxWindowError (some winMsg) = true →
        (runQueryGo cfgDefault (fun _ => .page metaWinErr []) 1 0).2 =
            .completed (some "max_result_window") ∧
          .statusPersist "completed" "running" (some "max_result_window") ∈
            (runQueryGo cfgDefault (fun _ => .page metaWinErr []) 1 0).1) ∧
      (isMaxWindowError (some winMsg) = false →
        (runQueryGo cfgDefault (fun _ => .page metaWinErr []) 1 0).2 =
            .failed "list_error" ∧
          .statusPersist "failed" "failed" (some "list_error") ∈
            (runQueryGo cfgDefault (fun _ => .page metaWinErr []) 1 0).1) ∧
      (runQueryGo cfgDefault (fun _ => .page metaWinErr []) 1 0).2 ≠
        .raised) ∧
      (mainQueriesGo cfgC1 (fun _ _ => .page metaWinErr []) 1 ⟨[], 0, []⟩
        ["array", "graph"]).map Prod.fst = ["array", "graph"] :=
  C8_list_error_classification cfgDefault (fun _ => .page metaWinErr []) 0 0
    winMsg metaWinErr [] cfgC1 (fun _ _ => .page metaWinErr []) ⟨[], 0, []⟩
    "array" "graph" 1
    (fun w hw => by simp [cfgDefault] at hw) rfl rfl (by decide)

/-- Claim C10: list payload extraction is total and malformed responses
degrade to an empty page — a falsy response, a missing/non-array `objects`
field, or an empty wrapper array yields `{items: [], meta: {}}` — and the
orchestrator then treats the query as completed rather than failing. -/
theorem C10_list_payload_total (response : JsVal) (cfg : OrchCfg)
    (fuel L0 : Nat)
    (hmal : response.truthy = false ∨
      (response.getField "objects").isArr = false ∨
      response.getField "objects" = .arr [])
    (hwin : ∀ w, cfg.listMaxResultWindow = some w →
      L0 + cfg.listLimit ≤ w) :
    getListPayload response = (.arr [], .obj []) ∧
      metaOfJs (.obj []) = emptyMeta ∧
      (runQueryGo cfg (fun _ => .page emptyMeta []) (fuel + 1) L0).2 =
        .completed none := by
  have hwinb : (match cfg.listMaxResultWindow with
      | some w => decide (w < L0 + cfg.listLimit)
      | none => false) = false := by
    cases hW : cfg.listMaxResultWindow with
    | none => rfl
    | some w =>
      simp only [decide_eq_false_iff_not]
      have := hwin w hW
      omega
  refine ⟨?_, rfl, ?_⟩
  · unfold getListPayload
    by_cases ht : response.truthy = false
    · rw [if_pos ht]
    · rw [if_neg ht]
      rcases hmal with h | h | h
      · exact absurd h ht
      · cases hobj : response.getField "objects" with
        | arr es =>
          cases es with
          | nil => rfl
          | cons w ws =>
            rw [hobj] at h
            simp [JsVal.isArr] at h
        | null => rfl
        | undefVal => rfl
        | bool b => rfl
        | num n => rfl
        | str s => rfl
        | obj fs => rfl
      · rw [h]
  · rw [runQueryGo]
    unfold pageStep
    rw [hwinb, if_neg Bool.false_ne_true]
    rfl

/-- Witness for C10: a bare error object (no `objects` array) degrades to
the empty payload and the query completes. -/
theorem C10_witness :
    getListPayload (.obj [("detail", .str "Not found")]) =
        (.arr [], .obj []) ∧
      metaOfJs (.obj []) = emptyMeta ∧
      (runQueryGo cfgDefault (fun _ => .page emptyMeta []) 1 0).2 =
        .completed none :=
  C10_list_payload_total (.obj [("detail", .str "Not found")]) cfgDefault 0 0
    (Or.inr (Or.inl rfl)) (fun w hw => by simp [cfgDefault] at hw)

/-! ### Checkpoint invariants (claim C2) -/

/-- `fetchOffsets` distributes over concatenation. -/
theorem fetchOffsets_append (a b : List OEvent) :
    fetchOffsets (a ++ b) = fetchOffsets a ++ fetchOffsets b :=
  List.filterMap_append a b _

/-- Splitting membership in a triple append. -/
theorem mem_three_append {α : Type} (e : α) (a b c : List α)
    (h : e ∈ a ++ b ++ c) : e ∈ a ∨ e ∈ b ∨ e ∈ c := by
  simp only [List.mem_append] at h
  tauto

/-- Splitting membership in a quadruple append. -/
theorem mem_four_append {α : Type} (e : α) (a b c d : List α)
    (h : e ∈ a ++ b ++ c ++ d) : e ∈ a ∨ e ∈ b ∨ e ∈ c ∨ e ∈ d := by
  simp only [List.mem_append] at h
  tauto

/-- Every `persistState` call inside one item's processing either leaves
the top-level `lastOffset` unset or re-checkpoints the current page
boundary `K`, and always carries `perQuery.lastOffset = K`. -/
theorem persist_mem_itemEvents (cfg : OrchCfg) (K : Nat) (it : PageItem)
    (t : Option Nat) (k : Nat)
    (h : OEvent.persist t k ∈ itemEvents cfg K it) :
    (t = none ∨ t = some K) ∧ k = K := by
  unfold itemEvents at h
  split at h
  · simp at h <;> tauto
  · split at h
    · simp at h <;> tauto
    · rw [List.cons_append, List.cons_append, List.nil_append,
        List.mem_cons, List.mem_cons] at h
      rcases h with h | h | h
      · simp at h <;> tauto
      · simp at h
      · split at h
        · simp at h <;> tauto
        · rcases List.mem_append.mp h with h | h
          · split at h
            · simp at h
            · simp at h <;> tauto
          · simp at h <;> tauto

/-- No item processing emits a list fetch. -/
theorem fetchOffsets_itemEvents (cfg : OrchCfg) (K : Nat) (it : PageItem) :
    fetchOffsets (itemEvents cfg K it) = [] := by
  unfold itemEvents
  split
  · rfl
  · split
    · rfl
    · simp only [fetchOffsets, List.filterMap_append]
      split
      · rfl
      · simp only [List.filterMap_append]
        split <;> rfl

/-- The item part of a processed page emits no list fetches. -/
theorem fetchOffsets_items_flatten (cfg : OrchCfg) (K : Nat) :
    ∀ (items : List PageItem),
      fetchOffsets ((items.map (itemEvents cfg K)).flatten) = [] := by
  intro items
  induction items with
  | nil => rfl
  | cons it rest ih =>
    simp only [List.map_cons, List.flatten_cons]
    rw [fetchOffsets_append, fetchOffsets_itemEvents, ih]
    rfl

/-- Every checkpointed offset in one page block is the page boundary `K`
or the advanced boundary `K + limit` — never a mid-page offset. -/
theorem persist_mem_pageStep (cfg : OrchCfg) (K : Nat) (ps : PageScript)
    (t : Option Nat) (k : Nat)
    (h : OEvent.persist t k ∈ (pageStep cfg K ps).1) :
    (t = none ∨ t = some K ∨ t = some (K + cfg.listLimit)) ∧
      (k = K ∨ k = K + cfg.listLimit) := by
  unfold pageStep at h
  split at h
  · simp at h <;> tauto
  · split at h
    · simp at h <;> tauto
    · split at h
      · simp at h <;> tauto
      · simp at h <;> tauto
      · simp at h <;> tauto
      · rcases mem_four_append _ _ _ _ _ h with h | h | h | h
        · simp at h <;> tauto
        · simp at h <;> tauto
        · rw [List.mem_flatten] at h
          obtain ⟨l, hl, hel⟩ := h
          rw [List.mem_map] at hl
          obtain ⟨it, _, hit⟩ := hl
          subst hit
          have := persist_mem_itemEvents cfg K it t k hel
          tauto
        · simp at h <;> tauto

/-- The list fetches of one page block: none when the window guard stops
the query before fetching, exactly one fetch at `K` otherwise. -/
theorem fetchOffsets_pageStep (cfg : OrchCfg) (K : Nat) (ps : PageScript) :
    fetchOffsets (pageStep cfg K ps).1 = [] ∨
      fetchOffsets (pageStep cfg K ps).1 = [K] := by
  unfold pageStep
  split
  · left; rfl
  · split
    · right; rfl
    · split
      · right; rfl
      · right; rfl
      · right; rfl
      · right
        rw [fetchOffsets_append, fetchOffsets_append, fetchOffsets_append,
          fetchOffsets_items_flatten]
        rfl

/-- A page block that continues advanced by exactly one limit, its final
event is the advancing checkpoint, that checkpoint comes after every item
of the page was handled, and every other checkpoint of the block still
carries the old boundary `K`. -/
theorem pageStep_advance (cfg : OrchCfg) (K : Nat) (ps : PageScript)
    (evs : List OEvent) (K' : Nat)
    (h : pageStep cfg K ps = (evs, .continueAt K')) :
    K' = K + cfg.listLimit ∧
      ∃ hd, evs = hd ++
          [.persist (some (K + cfg.listLimit)) (K + cfg.listLimit)] ∧
        (∀ it ∈ pageItems ps,
          .itemHandled K it.slug (itemEndOf cfg it) ∈ hd) ∧
        (∀ t k, .persist t k ∈ hd → ∀ o, t = some o → o = K) := by
  unfold pageStep at h
  split at h
  · simp at h
  · split at h
    · simp at h
    · rename_i meta items
      split at h
      · simp at h
      · simp at h
      · simp at h
      · simp only [Prod.mk.injEq, PageEnd.continueAt.injEq] at h
        obtain ⟨hevs, hK'⟩ := h
        refine ⟨hK'.symm, ?_⟩
        refine ⟨[OEvent.persist none K, OEvent.listFetch K] ++
          [OEvent.persist (some K) K] ++
          ((pageItems (PageScript.page meta items)).map
            (itemEvents cfg K)).flatten, ?_, ?_, ?_⟩
        · rw [← hevs]
        · intro it hit
          rw [List.mem_append]
          right
          rw [List.mem_flatten]
          refine ⟨itemEvents cfg K it, List.mem_map_of_mem _ hit, ?_⟩
          unfold itemEvents itemEndOf
          split
          · simp
          · split
            · simp
            · split
              · simp
              · split <;> simp
        · intro t k hmem o hto
          subst hto
          rcases mem_three_append _ _ _ _ hmem with h | h | h
          · simp at h
          · simp only [List.mem_singleton, OEvent.persist.injEq,
              Option.some.injEq] at h
            exact h.1
          · rw [List.mem_flatten] at h
            obtain ⟨l, hl, hel⟩ := h
            rw [List.mem_map] at hl
            obtain ⟨it, _, hit⟩ := hl
            subst hit
            have hok := (persist_mem_itemEvents cfg K it (some o) k hel).1
            have ho : o = K := by
              rcases hok with h' | h'
              · exact Option.noConfusion h'
              · exact Option.some.inj h'
            exact ho

/-- Claim C2: with a positive list limit and a page-boundary starting
offset, every `lastOffset` value checkpointed by the query loop —
top-level and per-query — is a multiple of the limit (never a mid-page
offset); pages are fetched in strictly increasing offset order, as the
arithmetic progression `L0, L0 + limit, …`; the first fetch of a
(re)started run is at exactly the stored offset `L0`; and the checkpoint
advancing to `K + limit` is emitted only after every item of the page at
`K` has been handled, all other in-page checkpoints still carrying `K`. -/
theorem C2_checkpoint_invariant (cfg : OrchCfg) (script : Nat → PageScript)
    (fuel L0 : Nat) (hlim : 0 < cfg.listLimit)
    (hL0 : cfg.listLimit ∣ L0) :
    (∀ t k, OEvent.persist t k ∈ (runQueryGo cfg script fuel L0).1 →
        (∀ o, t = some o → cfg.listLimit ∣ o) ∧ cfg.listLimit ∣ k) ∧
      (∃ n, fetchOffsets (runQueryGo cfg script fuel L0).1 =
        (List.range n).map (fun j => L0 + j * cfg.listLimit)) ∧
      (∀ o, (fetchOffsets (runQueryGo cfg script fuel L0).1).head? =
        some o → o = L0) ∧
      (∀ K evs K', pageStep cfg K (script K) = (evs, .continueAt K') →
        K' = K + cfg.listLimit ∧
        ∃ hd, evs = hd ++
            [.persist (some (K + cfg.listLimit)) (K + cfg.listLimit)] ∧
          (∀ it ∈ pageItems (script K),
            .itemHandled K it.slug (itemEndOf cfg it) ∈ hd) ∧
          (∀ t k, .persist t k ∈ hd → ∀ o, t = some o → o = K)) := by
  have ha : ∀ (fl l0 : Nat), cfg.listLimit ∣ l0 →
      ∀ t k, OEvent.persist t k ∈ (runQueryGo cfg script fl l0).1 →
        (∀ o, t = some o → cfg.listLimit ∣ o) ∧ cfg.listLimit ∣ k := by
    intro fl
    induction fl with
    | zero => intro l0 _ t k h; simp [runQueryGo] at h
    | succ fl ih =>
      intro l0 hdvd t k h
      rw [runQueryGo] at h
      rcases hps : pageStep cfg l0 (script l0) with ⟨evs, pe⟩
      rw [hps] at h
      cases pe with
      | stop qe =>
        simp only at h
        have := persist_mem_pageStep cfg l0 (script l0) t k
          (by rw [hps]; exact h)
        refine ⟨fun o hto => ?_, ?_⟩
        · rcases this.1 with h' | h' | h' <;> rw [hto] at h'
          · exact Option.noConfusion h'
          · injection h' with h'; exact h' ▸ hdvd
          · injection h' with h'
            exact h' ▸ (Dvd.dvd.add hdvd (Dvd.intro 1 (by ring)))
        · rcases this.2 with h' | h'
          · exact h' ▸ hdvd
          · exact h' ▸ (Dvd.dvd.add hdvd (Dvd.intro 1 (by ring)))
      | continueAt K' =>
        simp only at h
        rw [List.mem_append] at h
        rcases h with h | h
        · have := persist_mem_pageStep cfg l0 (script l0) t k
            (by rw [hps]; exact h)
          refine ⟨fun o hto => ?_, ?_⟩
          · rcases this.1 with h' | h' | h' <;> rw [hto] at h'
            · exact Option.noConfusion h'
            · injection h' with h'; exact h' ▸ hdvd
            · injection h' with h'
              exact h' ▸ (Dvd.dvd.add hdvd (Dvd.intro 1 (by ring)))
          · rcases this.2 with h' | h'
            · exact h' ▸ hdvd
            · exact h' ▸ (Dvd.dvd.add hdvd (Dvd.intro 1 (by ring)))
        · have hK' : K' = l0 + cfg.listLimit :=
            (pageStep_advance cfg l0 (script l0) evs K' hps).1
          exact ih K' (hK' ▸ Dvd.dvd.add hdvd (Dvd.intro 1 (by ring))) t k h
  have hb : ∀ (fl l0 : Nat),
      ∃ n, fetchOffsets (runQueryGo cfg script fl l0).1 =
        (List.range n).map (fun j => l0 + j * cfg.listLimit) := by
    intro fl
    induction fl with
    | zero => intro l0; exact ⟨0, rfl⟩
    | succ fl ih =>
      intro l0
      rw [runQueryGo]
      rcases hps : pageStep cfg l0 (script l0) with ⟨evs, pe⟩
      cases pe with
      | stop qe =>
        rcases fetchOffsets_pageStep cfg l0 (script l0) with h | h <;>
          rw [hps] at h
        · exact ⟨0, h⟩
        · exact ⟨1, by
            rw [show (List.range 1).map (fun j => l0 + j * cfg.listLimit) =
              [l0] from by
                rw [show List.range 1 = [0] from rfl, List.map_cons,
                  List.map_nil, Nat.zero_mul, Nat.add_zero]]
            exact h⟩
      | continueAt K' =>
        obtain ⟨n, hn⟩ := ih K'
        have hK' : K' = l0 + cfg.listLimit :=
          (pageStep_advance cfg l0 (script l0) evs K' hps).1
        refine ⟨n + 1, ?_⟩
        have hevs : fetchOffsets evs = [l0] := by
          obtain ⟨hd, hhd, _, _⟩ :=
            (pageStep_advance cfg l0 (script l0) evs K' hps).2
          rcases fetchOffsets_pageStep cfg l0 (script l0) with h | h <;>
            rw [hps] at h
          · exfalso
            unfold pageStep at hps
            split at hps
            · simp at hps
            · split at hps
              · simp at hps
              · split at hps
                · simp at hps
                · simp at hps
                · simp at hps
                · simp only [Prod.mk.injEq] at hps
                  rw [← hps.1] at h
                  rw [fetchOffsets_append, fetchOffsets_append,
                    fetchOffsets_append, fetchOffsets_items_flatten] at h
                  simp [fetchOffsets] at h
          · exact h
        show fetchOffsets (evs ++ (runQueryGo cfg script fl K').1) = _
        rw [fetchOffsets_append, hevs, hn, hK', List.range_succ_eq_map]
        simp only [List.map_cons, List.map_map, Nat.zero_mul, Nat.add_zero,
          List.cons_append, List.nil_append]
        congr 1
        apply List.map_congr_left
        intro j _
        show l0 + cfg.listLimit + j * cfg.listLimit =
          l0 + (j + 1) * cfg.listLimit
        ring
  refine ⟨ha fuel L0 hL0, hb fuel L0, ?_, ?_⟩
  · intro o ho
    obtain ⟨n, hn⟩ := hb fuel L0
    rw [hn] at ho
    cases n with
    | zero => simp at ho
    | succ n =>
      rw [List.range_succ_eq_map] at ho
      simp only [List.map_cons, List.head?_cons, Option.some.injEq] at ho
      omega
  · intro K evs K' h
    exact pageStep_advance cfg K (script K) evs K' h

/-- Witness for C2 at a concrete two-page run (one item on the first
page): every checkpoint divisible by the limit, fetches form the
progression from offset 0, and page advancement happens only after the
item was handled. -/
theorem C2_witness :
    (∀ t k, OEvent.persist t k ∈ (runQueryGo cfgDefault scriptC2 3 0).1 →
        (∀ o, t = some o → cfgDefault.listLimit ∣ o) ∧
          cfgDefault.listLimit ∣ k) ∧
      (∃ n, fetchOffsets (runQueryGo cfgDefault scriptC2 3 0).1 =
        (List.range n).map (fun j => 0 + j * cfgDefault.listLimit)) ∧
      (∀ o, (fetchOffsets (runQueryGo cfgDefault scriptC2 3 0).1).head? =
        some o → o = 0) ∧
      (∀ K evs K',
        pageStep cfgDefault K (scriptC2 K) = (evs, .continueAt K') →
        K' = K + cfgDefault.listLimit ∧
        ∃ hd, evs = hd ++
            [.persist (some (K + cfgDefault.listLimit))
              (K + cfgDefault.listLimit)] ∧
          (∀ it ∈ pageItems (scriptC2 K),
            .itemHandled K it.slug (itemEndOf cfgDefault it) ∈ hd) ∧
          (∀ t k, .persist t k ∈ hd → ∀ o, t = some o → o = K)) :=
  C2_checkpoint_invariant cfgDefault scriptC2 3 0 (by decide) ⟨0, rfl⟩

/-- Concrete check: the traversal of the two-node cyclic heap terminates
having visited both nodes exactly once. -/
theorem scanRun_cyclicHeap_example :
    (scanRun cyclicHeap (scanMeasure cyclicHeap (initScan 0))
        (initScan 0)).worklist = [] ∧
      (scanRun cyclicHeap (scanMeasure cyclicHeap (initScan 0))
        (initScan 0)).visited = [1, 0] := by
  constructor <;> rfl

end QSync
